import Mathlib

/-!
# Light client: seed providers and the multi-signature collector

A shallow embedding of `certifiers/provider.go` and `tx/multi.go`; the file
provider of `certifiers/files` is modelled from its contract.

* Go `int` heights are `Int`; only comparisons are performed on them.
* Go `[]byte` is `ByteSlice`; the nil slice is the empty list.
* Go `error` is `Option Error`; `none` is the nil error.
* A `Provider` is an interface value.  Its methods act on an explicit world
  state `W` (stores, files, network), threaded through every call.
* Every loop over sub-providers also returns `calls`, the list of the calls
  it made, in call order, each with the position of the sub-provider in the
  list and what that call returned.
-/

set_option autoImplicit false

namespace LightClient

/-! ## Data model -/

/-- Go byte slice. -/
abbrev ByteSlice := List (Fin 256)

/-- Go error values that occur in the embedded code. -/
inductive Error where
  /-- The value of `ErrIsSeedNotFoundErr()`. -/
  | seedNotFound : Error
  /-- The value of `errors.New(msg)`. -/
  | new (msg : String) : Error
  /-- The value of `errors.Errorf("Signature %d doesn't match (key: %X)", i, key)`. -/
  | signatureMismatch (i : Nat) (key : ByteSlice) : Error
  /-- The value of `errors.WithStack(cause)`. -/
  | withStack (cause : Error) : Error
  deriving DecidableEq, Repr

/-- Modelled from the spec: the validator type of the external chain library,
an opaque record that is stored and returned verbatim. -/
structure Validator where
  raw : ByteSlice
  deriving DecidableEq, Repr

/-- Modelled from the spec: the block header of the external chain library, of
which only the `ValidatorsHash` field is read. -/
structure Header where
  ValidatorsHash : ByteSlice
  deriving DecidableEq, Repr

/-- Modelled from the spec: the checkpoint type, declared outside
`certifiers/provider.go`: a height and a header that may be absent. -/
structure Checkpoint where
  height : Int
  Header : Option Header
  deriving DecidableEq, Repr

/-- Modelled from the spec: `Checkpoint.Height()` is the checkpoint height. -/
def Checkpoint.Height (c : Checkpoint) : Int := c.height

/-- Seed: a checkpoint (embedded) and the validator set. -/
structure Seed extends Checkpoint where
  Validators : List Validator
  deriving DecidableEq, Repr

/-- `func (s Seed) Height() int`. -/
def Seed.Height (s : Seed) : Int := s.toCheckpoint.Height

/-- `func (s Seed) Hash() []byte`. -/
def Seed.Hash (s : Seed) : ByteSlice :=
  match s.toCheckpoint.Header with
  | none => []
  | some h => h.ValidatorsHash

/-- The Go zero value of `Seed` (an unassigned `var s Seed`, or `Seed{}`). -/
def Seed.zero : Seed := { height := 0, Header := none, Validators := [] }

/-- `var FutureHeight = (math.MaxInt32 - 5)`. -/
def FutureHeight : Int := 2147483647 - 5

/-! ## Providers -/

/-- The `Provider` interface.  Each method takes the world before the call and
returns the world after it together with the Go results. -/
structure Provider (W : Type) where
  StoreSeed : Seed → W → Option Error × W
  GetByHeight : Int → W → Seed × Option Error × W
  GetByHash : ByteSlice → W → Seed × Option Error × W

/-- `func LatestSeed(p Provider) (Seed, error)`. -/
def LatestSeed {W : Type} (p : Provider W) (w : W) : Seed × Option Error × W :=
  p.GetByHeight FutureHeight w

/-- `type CacheProvider struct { Providers []Provider }`. -/
structure CacheProvider (W : Type) where
  Providers : List (Provider W)

/-- `func NewCacheProvider(providers ...Provider) CacheProvider`. -/
def NewCacheProvider {W : Type} (providers : List (Provider W)) : CacheProvider W :=
  { Providers := providers }

/-- What a `CacheProvider.StoreSeed` call leaves behind: the returned error,
the world after the call and the sub-provider calls made. -/
structure StoreResult (W : Type) where
  err : Option Error
  world : W
  calls : List (Nat × Option Error)

/-- The `for _, p := range c.Providers` loop of `CacheProvider.StoreSeed`, from
position `i` on.  The error tested by the loop is the variable declared inside
the loop body; a non-nil one leaves the loop. -/
def StoreSeedLoop {W : Type} (seed : Seed) :
    List (Provider W) → Nat → W → W × List (Nat × Option Error)
  | [], _, w => (w, [])
  | p :: ps, i, w =>
    match p.StoreSeed seed w with
    | (some e, w1) => (w1, [(i, some e)])
    | (none, w1) =>
      let r := StoreSeedLoop seed ps (i + 1) w1
      (r.1, (i, none) :: r.2)

/-- `func (c CacheProvider) StoreSeed(seed Seed) (err error)`.  The named
result `err` is never assigned: the loop body declares its own `err` with
`:=`, so `return err` returns the initial nil. -/
def CacheProvider.StoreSeed {W : Type} (c : CacheProvider W) (seed : Seed) (w : W) :
    StoreResult W :=
  let err : Option Error := none
  let r := StoreSeedLoop seed c.Providers 0 w
  { err := err, world := r.1, calls := r.2 }

/-- What a `CacheProvider.GetByHeight` or `GetByHash` call leaves behind: the
returned seed and error, the world after the call and the sub-provider calls
made. -/
structure GetResult (W : Type) where
  s : Seed
  err : Option Error
  world : W
  calls : List (Nat × Seed × Option Error)

/-- The loop of `CacheProvider.GetByHeight` from position `i` on, with the
current values of the named results `s` and `err`. -/
def GetByHeightLoop {W : Type} (h : Int) :
    List (Provider W) → Nat → Seed → Option Error → W → GetResult W
  | [], _, s, err, w => { s := s, err := err, world := w, calls := [] }
  | p :: ps, i, s, _, w =>
    match p.GetByHeight h w with
    | (ts, none, w1) =>
      let s1 := if ts.Height > s.Height then ts else s
      if ts.Height = h then
        { s := s1, err := none, world := w1, calls := [(i, ts, none)] }
      else
        let r := GetByHeightLoop h ps (i + 1) s1 none w1
        { r with calls := (i, ts, none) :: r.calls }
    | (ts, some e, w1) =>
      let r := GetByHeightLoop h ps (i + 1) s (some e) w1
      { r with calls := (i, ts, some e) :: r.calls }

/-- `func (c CacheProvider) GetByHeight(h int) (s Seed, err error)`. -/
def CacheProvider.GetByHeight {W : Type} (c : CacheProvider W) (h : Int) (w : W) :
    GetResult W :=
  let r := GetByHeightLoop h c.Providers 0 Seed.zero none w
  if r.s.Height > 0 then { r with err := none } else r

/-- The loop of `CacheProvider.GetByHash` from position `i` on, with the
current values of the named results `s` and `err`. -/
def GetByHashLoop {W : Type} (hash : ByteSlice) :
    List (Provider W) → Nat → Seed → Option Error → W → GetResult W
  | [], _, s, err, w => { s := s, err := err, world := w, calls := [] }
  | p :: ps, i, _, _, w =>
    match p.GetByHash hash w with
    | (ts, none, w1) => { s := ts, err := none, world := w1, calls := [(i, ts, none)] }
    | (ts, some e, w1) =>
      let r := GetByHashLoop hash ps (i + 1) ts (some e) w1
      { r with calls := (i, ts, some e) :: r.calls }

/-- `func (c CacheProvider) GetByHash(hash []byte) (s Seed, err error)`. -/
def CacheProvider.GetByHash {W : Type} (c : CacheProvider W) (hash : ByteSlice) (w : W) :
    GetResult W :=
  GetByHashLoop hash c.Providers 0 Seed.zero none w

/-! ## Reference runs

Used to state what the loops do: every sub-provider is called once, in list
order, whatever the earlier ones returned, and the world is threaded through
the calls. -/

/-- The errors returned when `StoreSeed` is called on every provider of the
list in order. -/
def storeAll {W : Type} (seed : Seed) : List (Provider W) → W → List (Option Error)
  | [], _ => []
  | p :: ps, w => (p.StoreSeed seed w).1 :: storeAll seed ps (p.StoreSeed seed w).2

/-- The world after `StoreSeed` was called on every provider of the list in
order. -/
def storeWorld {W : Type} (seed : Seed) : List (Provider W) → W → W
  | [], w => w
  | p :: ps, w => storeWorld seed ps (p.StoreSeed seed w).2

/-- The results returned when `GetByHeight(h)` is called on every provider of
the list in order. -/
def heightAll {W : Type} (h : Int) : List (Provider W) → W → List (Seed × Option Error)
  | [], _ => []
  | p :: ps, w =>
    ((p.GetByHeight h w).1, (p.GetByHeight h w).2.1) :: heightAll h ps (p.GetByHeight h w).2.2

/-- The world after `GetByHeight(h)` was called on every provider of the list
in order. -/
def heightWorld {W : Type} (h : Int) : List (Provider W) → W → W
  | [], w => w
  | p :: ps, w => heightWorld h ps (p.GetByHeight h w).2.2

/-- The results returned when `GetByHash(hash)` is called on every provider of
the list in order. -/
def hashAll {W : Type} (hash : ByteSlice) : List (Provider W) → W → List (Seed × Option Error)
  | [], _ => []
  | p :: ps, w =>
    ((p.GetByHash hash w).1, (p.GetByHash hash w).2.1) :: hashAll hash ps (p.GetByHash hash w).2.2

/-- The world after `GetByHash(hash)` was called on every provider of the list
in order. -/
def hashWorld {W : Type} (hash : ByteSlice) : List (Provider W) → W → W
  | [], w => w
  | p :: ps, w => hashWorld hash ps (p.GetByHash hash w).2.2

/-- Number of `StoreSeed` calls made on a list of providers returning `errs`:
up to and including the first failure. -/
def storeStop : List (Option Error) → Nat
  | [] => 0
  | none :: rest => storeStop rest + 1
  | some _ :: _ => 1

/-- Number of `GetByHeight(h)` calls made on a list of providers returning
`rs`: up to and including the first success at height exactly `h`. -/
def heightStop (h : Int) : List (Seed × Option Error) → Nat
  | [] => 0
  | (ts, none) :: rest => if ts.Height = h then 1 else heightStop h rest + 1
  | (_, some _) :: rest => heightStop h rest + 1

/-- Number of `GetByHash` calls made on a list of providers returning `rs`: up
to and including the first success. -/
def hashStop : List (Seed × Option Error) → Nat
  | [] => 0
  | (_, none) :: _ => 1
  | (_, some _) :: rest => hashStop rest + 1

/-- Best seed after the results `rs`, starting from `s`: a successful result
replaces the current seed when its height is strictly greater. -/
def bestSeed : Seed → List (Seed × Option Error) → Seed
  | s, [] => s
  | s, (ts, none) :: rest => bestSeed (if ts.Height > s.Height then ts else s) rest
  | s, (_, some _) :: rest => bestSeed s rest

/-- Error of the last of the results `rs`, or `e` when there is none. -/
def lastErr : Option Error → List (Seed × Option Error) → Option Error
  | e, [] => e
  | _, r :: rest => lastErr r.2 rest

/-- Seed of the last of the results `rs`, or `s` when there is none. -/
def lastSeed : Seed → List (Seed × Option Error) → Seed
  | s, [] => s
  | _, r :: rest => lastSeed r.1 rest

/-! ## The Provider height contract, in the words of the spec -/

/-- The seed `s` is a seed of the store with the greatest stored height `≤ h`. -/
def IsGreatestAtMost (store : List Seed) (h : Int) (s : Seed) : Prop :=
  s ∈ store ∧ s.Height ≤ h ∧ ∀ t ∈ store, t.Height ≤ h → t.Height ≤ s.Height

/-- The result `(seed, err)` answers `GetByHeight(h)` over the store as the
contract requires: the seed of greatest stored height `≤ h` and no error when
the store has a height `≤ h`, an error when it has none. -/
def HeightContract (store : List Seed) (h : Int) (r : Seed × Option Error) : Prop :=
  ((∃ t ∈ store, t.Height ≤ h) → r.2 = none ∧ IsGreatestAtMost store h r.1) ∧
  ((¬ ∃ t ∈ store, t.Height ≤ h) → r.2 ≠ none)

instance (store : List Seed) (h : Int) (s : Seed) : Decidable (IsGreatestAtMost store h s) := by
  unfold IsGreatestAtMost
  infer_instance

instance (store : List Seed) (h : Int) (r : Seed × Option Error) :
    Decidable (HeightContract store h r) := by
  unfold HeightContract
  infer_instance

/-! ## Example providers -/

/-- A seed of the given height and validators hash, with no validators. -/
def mkSeed (height : Int) (hash : ByteSlice) : Seed :=
  { height := height, Header := some { ValidatorsHash := hash }, Validators := [] }

/-- A provider over a world that is a call log: every call appends `id` to the
log, `StoreSeed` returns `storeErr`, both lookups return `(seed, getErr)`. -/
def probe (id : Nat) (storeErr : Option Error) (seed : Seed) (getErr : Option Error) :
    Provider (List Nat) :=
  { StoreSeed := fun _ w => (storeErr, w ++ [id])
    GetByHeight := fun _ w => (seed, getErr, w ++ [id])
    GetByHash := fun _ w => (seed, getErr, w ++ [id]) }

/-! ## MultiSig -/

/-- `type signed struct { sig crypto.Signature; pubkey crypto.PubKey }`.  The
key and signature types belong to the external crypto library and are
parameters; `Sign`, the only writer, stores non-nil values only. -/
structure signed (PubKey Signature : Type) where
  sig : Signature
  pubkey : PubKey

/-- `type MultiSig struct { data []byte; sigs []signed }`. -/
structure MultiSig (PubKey Signature : Type) where
  data : ByteSlice
  sigs : List (signed PubKey Signature)

/-- `func NewMulti(data []byte) *MultiSig`. -/
def NewMulti {PubKey Signature : Type} (data : ByteSlice) : MultiSig PubKey Signature :=
  { data := data, sigs := [] }

/-- `func (s *MultiSig) Bytes() []byte`. -/
def MultiSig.Bytes {PubKey Signature : Type} (s : MultiSig PubKey Signature) : ByteSlice :=
  s.data

/-- `func (s *MultiSig) Sign(pubkey crypto.PubKey, sig crypto.Signature) error`:
the returned error and the receiver after the call.  A nil interface argument
is `none`. -/
def MultiSig.Sign {PubKey Signature : Type} (s : MultiSig PubKey Signature)
    (pubkey : Option PubKey) (sig : Option Signature) :
    Option Error × MultiSig PubKey Signature :=
  match pubkey, sig with
  | some pk, some sg =>
    let x : signed PubKey Signature := { sig := sg, pubkey := pk }
    (none, { s with sigs := s.sigs ++ [x] })
  | _, _ => (some (Error.new "Signature or Key missing"), s)

/-- What a `Signers` call returns, `keys` and `err`, and the indices of the
stored pairs on which `VerifyBytes` was called, in call order.  A slot of
`keys` that was never assigned is `none`. -/
structure SignersResult (PubKey : Type) where
  keys : List (Option PubKey)
  err : Option Error
  verified : List Nat

/-- The `for i := range s.sigs` loop of `Signers` from index `i` on, over the
remaining pairs and the current `keys`. -/
def SignersLoop {PubKey Signature : Type}
    (VerifyBytes : PubKey → ByteSlice → Signature → Bool) (keyBytes : PubKey → ByteSlice)
    (data : ByteSlice) :
    List (signed PubKey Signature) → Nat → List (Option PubKey) → SignersResult PubKey
  | [], _, keys => { keys := keys, err := none, verified := [] }
  | ms :: rest, i, keys =>
    if !VerifyBytes ms.pubkey data ms.sig then
      { keys := [], err := some (Error.signatureMismatch i (keyBytes ms.pubkey)),
        verified := [i] }
    else
      let r := SignersLoop VerifyBytes keyBytes data rest (i + 1) (keys.set i (some ms.pubkey))
      { r with verified := i :: r.verified }

/-- `func (s *MultiSig) Signers() ([]crypto.PubKey, error)`.  The methods
`VerifyBytes` and `Bytes` of the external key type are parameters. -/
def MultiSig.Signers {PubKey Signature : Type}
    (VerifyBytes : PubKey → ByteSlice → Signature → Bool) (keyBytes : PubKey → ByteSlice)
    (s : MultiSig PubKey Signature) : SignersResult PubKey :=
  if s.sigs.length = 0 then
    { keys := [], err := some (Error.new "Never signed"), verified := [] }
  else
    SignersLoop VerifyBytes keyBytes s.data s.sigs 0 (List.replicate s.sigs.length none)

/-- The receiver after a sequence of `Sign` calls with the given non-nil
arguments, in call order. -/
def signAll {PubKey Signature : Type} (s : MultiSig PubKey Signature) :
    List (PubKey × Signature) → MultiSig PubKey Signature
  | [] => s
  | p :: rest => signAll (s.Sign (some p.1) (some p.2)).2 rest

/-- A toy key scheme for examples: keys and signatures are numbers, and a
signature verifies when it is the key plus the payload length. -/
def toyVerify (pk : Nat) (data : ByteSlice) (sig : Nat) : Bool :=
  sig == pk + data.length

/-- The byte encoding of a toy key. -/
def toyKeyBytes (pk : Nat) : ByteSlice := [Fin.ofNat pk]

/-- `func (s *MultiSig) SignBytes() ([]byte, error)`.  The encoder
`wire.BinaryBytes(wrapper{s})` of the external wire format is the parameter
`encode`. -/
def MultiSig.SignBytes {PubKey Signature : Type}
    (encode : MultiSig PubKey Signature → ByteSlice) (s : MultiSig PubKey Signature) :
    ByteSlice × Option Error :=
  if s.sigs.length = 0 then
    ([], some (Error.new "Never signed"))
  else
    (encode s, none)

/-- A call on a `MultiSig` receiver. -/
inductive MultiSigCall (PubKey Signature : Type) where
  | sign (pubkey : Option PubKey) (sig : Option Signature) : MultiSigCall PubKey Signature
  | signers : MultiSigCall PubKey Signature
  | signBytes : MultiSigCall PubKey Signature

/-- The receiver after one call.  `Sign` is the only method that assigns to a
field of the receiver; `Signers` and `SignBytes` only read it. -/
def MultiSig.after {PubKey Signature : Type} (s : MultiSig PubKey Signature) :
    MultiSigCall PubKey Signature → MultiSig PubKey Signature
  | MultiSigCall.sign pubkey sig => (s.Sign pubkey sig).2
  | MultiSigCall.signers => s
  | MultiSigCall.signBytes => s

/-- The receiver after a sequence of calls, in call order. -/
def MultiSig.afterAll {PubKey Signature : Type} (s : MultiSig PubKey Signature) :
    List (MultiSigCall PubKey Signature) → MultiSig PubKey Signature
  | [] => s
  | call :: rest => MultiSig.afterAll (s.after call) rest

/-! ## MissingProvider, LoadSeed, Seeds -/

/-- `type MissingProvider struct{}` with its three methods; it has no state
and touches none. -/
def MissingProvider {W : Type} : Provider W :=
  { StoreSeed := fun _ w => (none, w)
    GetByHeight := fun _ w => (Seed.zero, some Error.seedNotFound, w)
    GetByHash := fun _ w => (Seed.zero, some Error.seedNotFound, w) }

/-- `func NewMissingProvider() MissingProvider`. -/
def NewMissingProvider {W : Type} : Provider W := MissingProvider

/-- The world after `StoreSeed` was called on the provider with each seed of
the list, in order. -/
def storeEach {W : Type} (p : Provider W) : List Seed → W → W
  | [], w => w
  | seed :: rest, w => storeEach p rest (p.StoreSeed seed w).2

/-- `func LoadSeed(path string) (seed Seed, err error)`.  The external calls are
parameters: `osOpen` is `os.Open`, giving the bytes of the file or an error;
`readBinary` is `wire.ReadBinaryPtr` into the zero seed, giving the seed as the
decoder left it and the error; `isNotExist` is `os.IsNotExist` on a non-nil
error (on the nil error it is false). -/
def LoadSeed (osOpen : String → Except Error ByteSlice)
    (readBinary : ByteSlice → Seed × Option Error) (isNotExist : Error → Bool)
    (path : String) : Seed × Option Error :=
  let r : Seed × Option Error :=
    match osOpen path with
    | Except.error e => (Seed.zero, some e)
    | Except.ok f => readBinary f
  match r.2 with
  | none => (r.1, none)
  | some e =>
    if isNotExist e then (r.1, some Error.seedNotFound)
    else (r.1, some (Error.withStack e))

/-- `type Seeds []Seed`. -/
abbrev Seeds := List Seed

/-- `func (s Seeds) Len() int`. -/
def Seeds.Len (s : Seeds) : Int := s.length

/-- `func (s Seeds) Swap(i, j int)`: the slice after the call, `none` when an
index is out of range (the Go code panics). -/
def Seeds.Swap (s : Seeds) (i j : Nat) : Option Seeds :=
  match s[i]?, s[j]? with
  | some a, some b => some ((s.set i b).set j a)
  | _, _ => none

/-- `func (s Seeds) Less(i, j int) bool`, `none` when an index is out of range
(the Go code panics). -/
def Seeds.Less (s : Seeds) (i j : Nat) : Option Bool :=
  match s[i]?, s[j]? with
  | some a, some b => some (decide (a.Height < b.Height))
  | _, _ => none

/-! ## The file provider, from its contract -/

/-- Modelled from the spec: the nearest-height-below query of the file
provider: a stored seed of the greatest stored height `≤ h`, none when no
stored height is `≤ h`. -/
def greatestAtMost (h : Int) : List Seed → Option Seed
  | [] => none
  | s :: rest =>
    match greatestAtMost h rest with
    | none => if s.Height ≤ h then some s else none
    | some t => if s.Height ≤ h ∧ t.Height ≤ s.Height then some s else some t

/-- Modelled from the spec: the file provider (`files.NewProvider`, package
`certifiers/files`, of which only the test is among the sources).  The world is
the list of persisted seeds.  `StoreSeed` persists the seed and succeeds, also
when the seed is already stored; `GetByHeight(h)` returns a stored seed of the
greatest stored height `≤ h`, or seed-not-found; `GetByHash` returns a stored
seed whose hash equals the query, or seed-not-found. -/
def FileProvider : Provider (List Seed) :=
  { StoreSeed := fun seed w => (none, if seed ∈ w then w else w ++ [seed])
    GetByHeight := fun h w =>
      match greatestAtMost h w with
      | some s => (s, none, w)
      | none => (Seed.zero, some Error.seedNotFound, w)
    GetByHash := fun hash w =>
      match w.find? (fun s => decide (s.Hash = hash)) with
      | some s => (s, none, w)
      | none => (Seed.zero, some Error.seedNotFound, w) }

/-- The ten seeds of `TestFileProvider`: heights `20 + 10*i` for `i` from 0 to
9.  Every iteration builds its validators with `keys.ToValidators(10, count/2)`,
the same set, so the ten seeds carry one validators hash. -/
def testSeeds : List Seed :=
  (List.range 10).map (fun (i : Nat) => mkSeed (20 + 10 * (i : Int)) [5])

/-- A toy wire encoder for examples: the payload followed by the number of
stored pairs. -/
def toyEncode (s : MultiSig Nat Nat) : ByteSlice := s.data ++ [Fin.ofNat s.sigs.length]

/-- A toy file system for examples: one readable file, one unreadable file,
nothing else. -/
def toyOpen (path : String) : Except Error ByteSlice :=
  if path = "seed-20" then Except.ok [20]
  else if path = "locked" then Except.error (Error.new "permission denied")
  else Except.error (Error.new "no such file")

/-- A toy decoder for examples: one byte, the height of the seed. -/
def toyRead (f : ByteSlice) : Seed × Option Error :=
  match f with
  | [b] => (mkSeed (b.val : Int) [b], none)
  | _ => (Seed.zero, some (Error.new "bad encoding"))

/-- The verdict of `os.IsNotExist` on the errors of the toy file system. -/
def toyIsNotExist (e : Error) : Bool := decide (e = Error.new "no such file")

/-! ## Theorems -/

/-! ### StoreSeed -/

theorem length_storeAll {W : Type} (seed : Seed) :
    ∀ (ps : List (Provider W)) (w : W), (storeAll seed ps w).length = ps.length
  | [], _ => rfl
  | p :: ps, w => by simp [storeAll, length_storeAll seed ps]

/-- The loop calls exactly the first `storeStop` providers of the reference run. -/
theorem StoreSeedLoop_eq {W : Type} (seed : Seed) :
    ∀ (ps : List (Provider W)) (i : Nat) (w : W),
      StoreSeedLoop seed ps i w =
        (storeWorld seed (ps.take (storeStop (storeAll seed ps w))) w,
          List.enumFrom i ((storeAll seed ps w).take (storeStop (storeAll seed ps w))))
  | [], i, w => by simp [StoreSeedLoop, storeAll, storeStop, storeWorld]
  | p :: ps, i, w => by
    rcases hp : p.StoreSeed seed w with ⟨e, w1⟩
    cases e with
    | none =>
      simp [StoreSeedLoop, storeAll, storeStop, storeWorld, hp, StoreSeedLoop_eq seed ps (i + 1) w1]
    | some e =>
      simp [StoreSeedLoop, storeAll, storeStop, storeWorld, hp]

theorem storeStop_first :
    ∀ (errs : List (Option Error)) (k : Nat) (e : Error),
      errs[k]? = some (some e) → (∀ j, j < k → errs[j]? = some none) →
      storeStop errs = k + 1
  | [], k, e, hk, _ => by simp at hk
  | none :: rest, 0, e, hk, _ => by simp at hk
  | some _ :: rest, 0, e, _, _ => by simp [storeStop]
  | none :: rest, k + 1, e, hk, hj => by
    have ih := storeStop_first rest k e (by simpa using hk)
      (fun j hjk => by simpa using hj (j + 1) (by omega))
    simp [storeStop, ih]
  | some x :: rest, k + 1, e, _, hj => by
    have h0 := hj 0 (by omega)
    simp at h0

theorem storeStop_all :
    ∀ (errs : List (Option Error)), (∀ e ∈ errs, e = none) → storeStop errs = errs.length
  | [], _ => rfl
  | none :: rest, h => by
    have ih := storeStop_all rest (fun e he => h e (List.mem_cons_of_mem _ he))
    simp [storeStop, ih]
  | some x :: rest, h => by
    have h0 := h (some x) (List.mem_cons_self _ _)
    simp at h0

/-- C1 (the code at the failing input): the single sub-provider fails with
"disk full", it is called, and `CacheProvider.StoreSeed` returns the nil error. -/
theorem CacheProvider_StoreSeed_returns_nil_on_failure :
    (CacheProvider.StoreSeed
        (NewCacheProvider [probe 0 (some (Error.new "disk full")) Seed.zero none])
        (mkSeed 20 [1]) []).calls = [(0, some (Error.new "disk full"))] ∧
    (CacheProvider.StoreSeed
        (NewCacheProvider [probe 0 (some (Error.new "disk full")) Seed.zero none])
        (mkSeed 20 [1]) []).err = none := by
  constructor <;> rfl

/-- `CacheProvider.StoreSeed` returns the nil error on every input. -/
theorem CacheProvider_StoreSeed_err_nil {W : Type} (c : CacheProvider W) (seed : Seed) (w : W) :
    (c.StoreSeed seed w).err = none := rfl

/-- C2: `CacheProvider.StoreSeed` calls `StoreSeed` on the sub-providers in list
order, each once, up to and including the first one that fails, and on none
after it: when the first failure is at position `k`, the calls made are those
of positions `0..k` and the world is the one left by these `k + 1` calls; when
no sub-provider fails, every sub-provider is called once, in order. -/
theorem CacheProvider_StoreSeed_call_order {W : Type} (c : CacheProvider W) (seed : Seed)
    (w : W) :
    (∀ (k : Nat) (e : Error),
        (storeAll seed c.Providers w)[k]? = some (some e) →
        (∀ j, j < k → (storeAll seed c.Providers w)[j]? = some none) →
        (c.StoreSeed seed w).calls = ((storeAll seed c.Providers w).take (k + 1)).enum ∧
        (c.StoreSeed seed w).calls.map Prod.fst = List.range (k + 1) ∧
        (c.StoreSeed seed w).world = storeWorld seed (c.Providers.take (k + 1)) w) ∧
    ((∀ e ∈ storeAll seed c.Providers w, e = none) →
        (c.StoreSeed seed w).calls = (storeAll seed c.Providers w).enum ∧
        (c.StoreSeed seed w).calls.map Prod.fst = List.range c.Providers.length ∧
        (c.StoreSeed seed w).world = storeWorld seed c.Providers w) := by
  have hloop := StoreSeedLoop_eq seed c.Providers 0 w
  constructor
  · intro k e hk hj
    have hstop := storeStop_first _ k e hk hj
    have hlt : k < (storeAll seed c.Providers w).length := by
      rcases Nat.lt_or_ge k (storeAll seed c.Providers w).length with h | h
      · exact h
      · rw [List.getElem?_eq_none h] at hk
        exact absurd hk (by simp)
    rw [hstop] at hloop
    refine ⟨?_, ?_, ?_⟩
    · simp [CacheProvider.StoreSeed, hloop, List.enum]
    · simp only [CacheProvider.StoreSeed, hloop, List.enumFrom_map_fst, List.length_take]
      rw [Nat.min_eq_left (by omega), List.range_eq_range']
    · simp [CacheProvider.StoreSeed, hloop]
  · intro hall
    have hstop := storeStop_all _ hall
    rw [hstop, length_storeAll] at hloop
    refine ⟨?_, ?_, ?_⟩
    · simp [CacheProvider.StoreSeed, hloop, List.enum, ← length_storeAll seed c.Providers w]
    · simp only [CacheProvider.StoreSeed, hloop, List.enumFrom_map_fst, List.length_take]
      rw [length_storeAll, Nat.min_self, List.range_eq_range']
    · simp [CacheProvider.StoreSeed, hloop]

/-- C2 at a concrete input: of three sub-providers the second fails; the first
two are called, in order, and the third is not. -/
theorem CacheProvider_StoreSeed_call_order_witness :
    (CacheProvider.StoreSeed
        (NewCacheProvider [probe 7 none Seed.zero none,
          probe 8 (some Error.seedNotFound) Seed.zero none, probe 9 none Seed.zero none])
        (mkSeed 20 [1]) []).calls.map Prod.fst = List.range 2 ∧
    (CacheProvider.StoreSeed
        (NewCacheProvider [probe 7 none Seed.zero none,
          probe 8 (some Error.seedNotFound) Seed.zero none, probe 9 none Seed.zero none])
        (mkSeed 20 [1]) []).world = [7, 8] :=
  ⟨((CacheProvider_StoreSeed_call_order
      (NewCacheProvider [probe 7 none Seed.zero none,
        probe 8 (some Error.seedNotFound) Seed.zero none, probe 9 none Seed.zero none])
      (mkSeed 20 [1]) []).1 1 Error.seedNotFound (by rfl) (by
        intro j hj
        have : j = 0 := by omega
        subst this
        rfl)).2.1,
    ((CacheProvider_StoreSeed_call_order
      (NewCacheProvider [probe 7 none Seed.zero none,
        probe 8 (some Error.seedNotFound) Seed.zero none, probe 9 none Seed.zero none])
      (mkSeed 20 [1]) []).1 1 Error.seedNotFound (by rfl) (by
        intro j hj
        have : j = 0 := by omega
        subst this
        rfl)).2.2⟩

/-! ### GetByHeight: the loop as a function of the reference run -/

theorem length_heightAll {W : Type} (h : Int) :
    ∀ (ps : List (Provider W)) (w : W), (heightAll h ps w).length = ps.length
  | [], _ => rfl
  | p :: ps, w => by simp [heightAll, length_heightAll h ps]

/-- The loop calls exactly the first `heightStop` providers of the reference
run; its seed is the best of their results and its error the last of theirs. -/
theorem GetByHeightLoop_eq {W : Type} (h : Int) :
    ∀ (ps : List (Provider W)) (i : Nat) (s : Seed) (err : Option Error) (w : W),
      GetByHeightLoop h ps i s err w =
        { s := bestSeed s ((heightAll h ps w).take (heightStop h (heightAll h ps w)))
          err := lastErr err ((heightAll h ps w).take (heightStop h (heightAll h ps w)))
          world := heightWorld h (ps.take (heightStop h (heightAll h ps w))) w
          calls := List.enumFrom i
            ((heightAll h ps w).take (heightStop h (heightAll h ps w))) }
  | [], i, s, err, w => by
    simp [GetByHeightLoop, heightAll, heightStop, heightWorld, bestSeed, lastErr]
  | p :: ps, i, s, err, w => by
    rcases hp : p.GetByHeight h w with ⟨ts, e, w1⟩
    cases e with
    | none =>
      by_cases hts : ts.Height = h
      · simp [GetByHeightLoop, heightAll, heightStop, heightWorld, bestSeed, lastErr, hp, hts]
      · simp [GetByHeightLoop, heightAll, heightStop, heightWorld, bestSeed, lastErr, hp, hts,
          GetByHeightLoop_eq h ps (i + 1) _ none w1]
    | some e =>
      simp [GetByHeightLoop, heightAll, heightStop, heightWorld, bestSeed, lastErr, hp,
        GetByHeightLoop_eq h ps (i + 1) s (some e) w1]

theorem heightStop_first (h : Int) (t : Seed) :
    ∀ (rs : List (Seed × Option Error)) (i : Nat),
      rs[i]? = some (t, none) → t.Height = h →
      (∀ j r, j < i → rs[j]? = some r → ¬ (r.2 = none ∧ r.1.Height = h)) →
      heightStop h rs = i + 1
  | [], i, hi, _, _ => by simp at hi
  | (ts, none) :: rest, 0, hi, ht, _ => by
    have : ts = t := by simpa using hi
    simp [heightStop, this, ht]
  | (ts, some e) :: rest, 0, hi, _, _ => by simp at hi
  | (ts, none) :: rest, i + 1, hi, ht, hj => by
    have h0 := hj 0 (ts, none) (by omega) (by simp)
    have hts : ¬ ts.Height = h := by simpa using h0
    have ih := heightStop_first h t rest i (by simpa using hi) ht
      (fun j r hji hr => hj (j + 1) r (by omega) (by simpa using hr))
    simp [heightStop, hts, ih]
  | (ts, some e) :: rest, i + 1, hi, ht, hj => by
    have ih := heightStop_first h t rest i (by simpa using hi) ht
      (fun j r hji hr => hj (j + 1) r (by omega) (by simpa using hr))
    simp [heightStop, ih]

theorem heightStop_all_err (h : Int) :
    ∀ (rs : List (Seed × Option Error)), (∀ r ∈ rs, r.2 ≠ none) →
      heightStop h rs = rs.length
  | [], _ => rfl
  | (ts, none) :: rest, hall => by
    have h0 := hall (ts, none) (List.mem_cons_self _ _)
    simp at h0
  | (ts, some e) :: rest, hall => by
    have ih := heightStop_all_err h rest (fun r hr => hall r (List.mem_cons_of_mem _ hr))
    simp [heightStop, ih]

/-- The loop either went through the whole list or stopped on a success at
height exactly `h`. -/
theorem heightStop_cases (h : Int) :
    ∀ (rs : List (Seed × Option Error)),
      heightStop h rs = rs.length ∨
        ∃ ts, (ts, none) ∈ rs.take (heightStop h rs) ∧ ts.Height = h
  | [] => Or.inl rfl
  | (ts, none) :: rest => by
    by_cases hts : ts.Height = h
    · exact Or.inr ⟨ts, by simp [heightStop, hts], hts⟩
    · rcases heightStop_cases h rest with ih | ⟨t, ht, hth⟩
      · exact Or.inl (by simp [heightStop, hts, ih])
      · exact Or.inr ⟨t, by simp [heightStop, hts, ht], hth⟩
  | (ts, some e) :: rest => by
    rcases heightStop_cases h rest with ih | ⟨t, ht, hth⟩
    · exact Or.inl (by simp [heightStop, ih])
    · exact Or.inr ⟨t, by simp [heightStop, ht], hth⟩

theorem bestSeed_ge_init :
    ∀ (rs : List (Seed × Option Error)) (s : Seed), s.Height ≤ (bestSeed s rs).Height
  | [], s => by simp [bestSeed]
  | (ts, none) :: rest, s => by
    simp only [bestSeed]
    by_cases hgt : ts.Height > s.Height
    · rw [if_pos hgt]
      have ih := bestSeed_ge_init rest ts
      omega
    · rw [if_neg hgt]
      exact bestSeed_ge_init rest s
  | (_, some _) :: rest, s => by simpa [bestSeed] using bestSeed_ge_init rest s

theorem bestSeed_ge :
    ∀ (rs : List (Seed × Option Error)) (s : Seed),
      ∀ r ∈ rs, r.2 = none → r.1.Height ≤ (bestSeed s rs).Height
  | [], _, r, hr, _ => by simp at hr
  | (ts, none) :: rest, s, r, hr, hnone => by
    simp only [bestSeed]
    rcases List.mem_cons.mp hr with heq | hmem
    · subst heq
      by_cases hgt : ts.Height > s.Height
      · rw [if_pos hgt]
        exact bestSeed_ge_init rest ts
      · rw [if_neg hgt]
        have ih := bestSeed_ge_init rest s
        simp only [gt_iff_lt, not_lt] at hgt
        show ts.Height ≤ (bestSeed s rest).Height
        omega
    · exact bestSeed_ge rest _ r hmem hnone
  | (ts, some e) :: rest, s, r, hr, hnone => by
    simp only [bestSeed]
    rcases List.mem_cons.mp hr with heq | hmem
    · subst heq
      simp at hnone
    · exact bestSeed_ge rest _ r hmem hnone

theorem bestSeed_mem :
    ∀ (rs : List (Seed × Option Error)) (s : Seed),
      bestSeed s rs = s ∨ ∃ r ∈ rs, r.2 = none ∧ bestSeed s rs = r.1
  | [], s => Or.inl rfl
  | (ts, none) :: rest, s => by
    simp only [bestSeed]
    rcases bestSeed_mem rest (if ts.Height > s.Height then ts else s) with ih | ⟨r, hr, hn, hb⟩
    · by_cases hgt : ts.Height > s.Height
      · rw [if_pos hgt] at ih ⊢
        exact Or.inr ⟨(ts, none), List.mem_cons_self _ _, rfl, ih⟩
      · rw [if_neg hgt] at ih ⊢
        exact Or.inl ih
    · exact Or.inr ⟨r, List.mem_cons_of_mem _ hr, hn, hb⟩
  | (ts, some e) :: rest, s => by
    simp only [bestSeed]
    rcases bestSeed_mem rest s with ih | ⟨r, hr, hn, hb⟩
    · exact Or.inl ih
    · exact Or.inr ⟨r, List.mem_cons_of_mem _ hr, hn, hb⟩

theorem bestSeed_all_err :
    ∀ (rs : List (Seed × Option Error)) (s : Seed), (∀ r ∈ rs, r.2 ≠ none) →
      bestSeed s rs = s
  | [], _, _ => rfl
  | (ts, none) :: rest, s, hall => by
    have h0 := hall (ts, none) (List.mem_cons_self _ _)
    simp at h0
  | (ts, some e) :: rest, s, hall => by
    simpa [bestSeed] using
      bestSeed_all_err rest s (fun r hr => hall r (List.mem_cons_of_mem _ hr))

theorem lastErr_eq_getLast :
    ∀ (rs : List (Seed × Option Error)) (e : Option Error), rs ≠ [] →
      rs.getLast?.map Prod.snd = some (lastErr e rs)
  | [], _, hne => absurd rfl hne
  | [r], e, _ => by simp [lastErr]
  | r :: r2 :: rest, e, _ => by
    have ih := lastErr_eq_getLast (r2 :: rest) r.2 (by simp)
    simpa [lastErr, List.getLast?_cons_cons] using ih

theorem lastErr_all_err :
    ∀ (rs : List (Seed × Option Error)) (e : Option Error), rs ≠ [] →
      (∀ r ∈ rs, r.2 ≠ none) → lastErr e rs ≠ none
  | [], _, hne, _ => absurd rfl hne
  | [r], e, _, hall => by simpa [lastErr] using hall r (List.mem_cons_self _ _)
  | r :: r2 :: rest, e, _, hall => by
    have ih := lastErr_all_err (r2 :: rest) r.2 (by simp)
      (fun x hx => hall x (List.mem_cons_of_mem _ hx))
    simpa [lastErr] using ih

theorem Seed_zero_Height : Seed.zero.Height = 0 := rfl

theorem GetByHeight_s {W : Type} (c : CacheProvider W) (h : Int) (w : W) :
    (c.GetByHeight h w).s =
      bestSeed Seed.zero
        ((heightAll h c.Providers w).take (heightStop h (heightAll h c.Providers w))) := by
  unfold CacheProvider.GetByHeight
  rw [GetByHeightLoop_eq]
  dsimp only
  split_ifs <;> rfl

theorem GetByHeight_calls {W : Type} (c : CacheProvider W) (h : Int) (w : W) :
    (c.GetByHeight h w).calls =
      List.enumFrom 0
        ((heightAll h c.Providers w).take (heightStop h (heightAll h c.Providers w))) := by
  unfold CacheProvider.GetByHeight
  rw [GetByHeightLoop_eq]
  dsimp only
  split_ifs <;> rfl

theorem GetByHeight_world {W : Type} (c : CacheProvider W) (h : Int) (w : W) :
    (c.GetByHeight h w).world =
      heightWorld h (c.Providers.take (heightStop h (heightAll h c.Providers w))) w := by
  unfold CacheProvider.GetByHeight
  rw [GetByHeightLoop_eq]
  dsimp only
  split_ifs <;> rfl

theorem GetByHeight_err {W : Type} (c : CacheProvider W) (h : Int) (w : W) :
    (c.GetByHeight h w).err =
      if (c.GetByHeight h w).s.Height > 0 then none
      else lastErr none
        ((heightAll h c.Providers w).take (heightStop h (heightAll h c.Providers w))) := by
  rw [GetByHeight_s]
  unfold CacheProvider.GetByHeight
  rw [GetByHeightLoop_eq]
  dsimp only
  split_ifs <;> rfl

/-- The results recorded in `calls` are the results of the calls made. -/
theorem GetByHeight_calls_snd {W : Type} (c : CacheProvider W) (h : Int) (w : W) :
    (c.GetByHeight h w).calls.map Prod.snd =
      (heightAll h c.Providers w).take (heightStop h (heightAll h c.Providers w)) := by
  rw [GetByHeight_calls, List.enumFrom_map_snd]

theorem bestSeed_exact (h : Int) (t : Seed) :
    ∀ (rs : List (Seed × Option Error)) (i : Nat) (s : Seed),
      s.Height < h → rs[i]? = some (t, none) → t.Height = h →
      (∀ j r, j < i → rs[j]? = some r → r.2 = none → r.1.Height < h) →
      bestSeed s (rs.take (i + 1)) = t
  | [], i, s, _, hi, _, _ => by simp at hi
  | (ts, none) :: rest, 0, s, hs, hi, ht, _ => by
    have hts : ts = t := by simpa using hi
    subst hts
    have : s.Height < ts.Height := by omega
    simp [bestSeed, this]
  | (ts, some e) :: rest, 0, s, _, hi, _, _ => by simp at hi
  | (ts, none) :: rest, i + 1, s, hs, hi, ht, hj => by
    have h0 : ts.Height < h := hj 0 (ts, none) (by omega) (by simp) rfl
    have hs1 : (if ts.Height > s.Height then ts else s).Height < h := by
      split_ifs <;> assumption
    have ih := bestSeed_exact h t rest i _ hs1 (by simpa using hi) ht
      (fun j r hji hr hn => hj (j + 1) r (by omega) (by simpa using hr) hn)
    simpa [bestSeed] using ih
  | (ts, some e) :: rest, i + 1, s, hs, hi, ht, hj => by
    have ih := bestSeed_exact h t rest i s hs (by simpa using hi) ht
      (fun j r hji hr hn => hj (j + 1) r (by omega) (by simpa using hr) hn)
    simpa [bestSeed] using ih

theorem forall₂_mem_left {α β : Type} {R : α → β → Prop} :
    ∀ {l1 : List α} {l2 : List β}, List.Forall₂ R l1 l2 → ∀ a ∈ l1, ∃ b ∈ l2, R a b
  | _, _, List.Forall₂.nil, a, ha => by simp at ha
  | _, _, List.Forall₂.cons hab hrest, a, ha => by
    rcases List.mem_cons.mp ha with heq | hmem
    · subst heq
      exact ⟨_, List.mem_cons_self _ _, hab⟩
    · rcases forall₂_mem_left hrest a hmem with ⟨b, hb, hr⟩
      exact ⟨b, List.mem_cons_of_mem _ hb, hr⟩

theorem forall₂_mem_right {α β : Type} {R : α → β → Prop} :
    ∀ {l1 : List α} {l2 : List β}, List.Forall₂ R l1 l2 → ∀ b ∈ l2, ∃ a ∈ l1, R a b
  | _, _, List.Forall₂.nil, b, hb => by simp at hb
  | _, _, List.Forall₂.cons hab hrest, b, hb => by
    rcases List.mem_cons.mp hb with heq | hmem
    · subst heq
      exact ⟨_, List.mem_cons_self _ _, hab⟩
    · rcases forall₂_mem_right hrest b hmem with ⟨a, ha, hr⟩
      exact ⟨a, List.mem_cons_of_mem _ ha, hr⟩

/-! ### GetByHeight: the claims -/

/-- C3: composition preserves the Provider height contract.  For a non-empty
list of sub-providers, each answering `GetByHeight(h)` as the contract requires
over its own store, all stored heights being at least 1,
`CacheProvider.GetByHeight(h)` answers as the contract requires over the union
of the stores: a seed of the greatest height `≤ h` of the union and no error
when the union has such a height, an error when it has none. -/
theorem CacheProvider_GetByHeight_preserves_contract {W : Type} (c : CacheProvider W)
    (stores : List (List Seed)) (h : Int) (w : W)
    (hne : c.Providers ≠ [])
    (hcontract : List.Forall₂ (fun r store => HeightContract store h r)
      (heightAll h c.Providers w) stores)
    (hpos : ∀ store ∈ stores, ∀ t ∈ store, 1 ≤ t.Height) :
    HeightContract stores.flatten h ((c.GetByHeight h w).s, (c.GetByHeight h w).err) := by
  have hs := GetByHeight_s c h w
  have herr := GetByHeight_err c h w
  -- a successful result is a stored seed of height between 1 and h
  have F1 : ∀ r ∈ heightAll h c.Providers w, r.2 = none →
      r.1.Height ≤ h ∧ 1 ≤ r.1.Height ∧ r.1 ∈ stores.flatten := by
    intro r hr hnone
    rcases forall₂_mem_left hcontract r hr with ⟨store, hstore, hc⟩
    by_cases hex : ∃ t ∈ store, t.Height ≤ h
    · rcases (hc.1 hex).2 with ⟨hmem, hle, _⟩
      exact ⟨hle, hpos store hstore _ hmem, List.mem_flatten.mpr ⟨store, hstore, hmem⟩⟩
    · exact absurd hnone (hc.2 hex)
  -- every stored seed of height at most h is matched by some successful result
  have F2 : ∀ t ∈ stores.flatten, t.Height ≤ h →
      ∃ r ∈ heightAll h c.Providers w, r.2 = none ∧ t.Height ≤ r.1.Height := by
    intro t ht hle
    rcases List.mem_flatten.mp ht with ⟨store, hstore, hmem⟩
    rcases forall₂_mem_right hcontract store hstore with ⟨r, hr, hc⟩
    rcases hc.1 ⟨t, hmem, hle⟩ with ⟨hnone, _, _, hmax⟩
    exact ⟨r, hr, hnone, hmax t hmem hle⟩
  constructor
  · rintro ⟨t, ht, hle⟩
    have K : ∀ u ∈ stores.flatten, u.Height ≤ h → u.Height ≤ (c.GetByHeight h w).s.Height := by
      intro u hu hule
      rw [hs]
      rcases heightStop_cases h (heightAll h c.Providers w) with hall | ⟨ts, hts, htsh⟩
      · rw [hall, List.take_length]
        rcases F2 u hu hule with ⟨r, hr, hnone, hge⟩
        exact le_trans hge (bestSeed_ge _ _ r hr hnone)
      · have := bestSeed_ge _ Seed.zero (ts, none) hts rfl
        simp only at this
        omega
    have hpos1 : 1 ≤ (c.GetByHeight h w).s.Height := by
      have h1 := hpos _ (List.mem_flatten.mp ht).choose_spec.1 t
        (List.mem_flatten.mp ht).choose_spec.2
      have h2 := K t ht hle
      omega
    refine ⟨?_, ?_, ?_, K⟩
    · show (c.GetByHeight h w).err = none
      rw [herr, if_pos (by omega)]
    · show (c.GetByHeight h w).s ∈ stores.flatten
      rcases bestSeed_mem
        ((heightAll h c.Providers w).take (heightStop h (heightAll h c.Providers w)))
        Seed.zero with hz | ⟨r, hr, hnone, hb⟩
      · rw [← hs, ] at hz
        rw [hz, Seed_zero_Height] at hpos1
        omega
      · rw [hs, hb]
        exact (F1 r (List.mem_of_mem_take hr) hnone).2.2
    · show (c.GetByHeight h w).s.Height ≤ h
      rcases bestSeed_mem
        ((heightAll h c.Providers w).take (heightStop h (heightAll h c.Providers w)))
        Seed.zero with hz | ⟨r, hr, hnone, hb⟩
      · rw [← hs, ] at hz
        rw [hz, Seed_zero_Height] at hpos1
        omega
      · rw [hs, hb]
        exact (F1 r (List.mem_of_mem_take hr) hnone).1
  · intro hno
    have hallerr : ∀ r ∈ heightAll h c.Providers w, r.2 ≠ none := by
      intro r hr hnone
      exact hno ⟨r.1, (F1 r hr hnone).2.2, (F1 r hr hnone).1⟩
    have hrs : heightAll h c.Providers w ≠ [] := by
      intro hnil
      have := length_heightAll h c.Providers w
      rw [hnil] at this
      exact hne (List.length_eq_zero.mp this.symm)
    show (c.GetByHeight h w).err ≠ none
    have hz : (c.GetByHeight h w).s = Seed.zero := by
      rw [hs, heightStop_all_err h _ hallerr, List.take_length]
      exact bestSeed_all_err _ _ hallerr
    rw [herr, hz, Seed_zero_Height, if_neg (by omega), heightStop_all_err h _ hallerr,
      List.take_length]
    exact lastErr_all_err _ _ hrs hallerr

/-- C3 at the input of the claim: stores A = {20} and B = {30}, h = 25.  A
answers with its height-20 seed, B with seed-not-found, and the composition
returns the height-20 seed of A with no error. -/
theorem CacheProvider_GetByHeight_preserves_contract_witness :
    HeightContract [[mkSeed 20 [20]], [mkSeed 30 [30]]].flatten 25
      ((CacheProvider.GetByHeight
          (NewCacheProvider [probe 0 none (mkSeed 20 [20]) none,
            probe 1 none Seed.zero (some Error.seedNotFound)]) 25 []).s,
        (CacheProvider.GetByHeight
          (NewCacheProvider [probe 0 none (mkSeed 20 [20]) none,
            probe 1 none Seed.zero (some Error.seedNotFound)]) 25 []).err) ∧
    (CacheProvider.GetByHeight
        (NewCacheProvider [probe 0 none (mkSeed 20 [20]) none,
          probe 1 none Seed.zero (some Error.seedNotFound)]) 25 []).s = mkSeed 20 [20] ∧
    (CacheProvider.GetByHeight
        (NewCacheProvider [probe 0 none (mkSeed 20 [20]) none,
          probe 1 none Seed.zero (some Error.seedNotFound)]) 25 []).err = none :=
  ⟨CacheProvider_GetByHeight_preserves_contract
      (NewCacheProvider [probe 0 none (mkSeed 20 [20]) none,
        probe 1 none Seed.zero (some Error.seedNotFound)])
      [[mkSeed 20 [20]], [mkSeed 30 [30]]] 25 []
      (by simp [NewCacheProvider])
      (List.Forall₂.cons (by decide) (List.Forall₂.cons (by decide) List.Forall₂.nil))
      (by decide),
    rfl, rfl⟩

/-- C4: for `h ≥ 1` and sub-providers whose successful `GetByHeight(h)` results
all have height `≤ h`, when the first sub-provider to succeed with a seed of
height exactly `h` is at position `i` and returns `t`,
`CacheProvider.GetByHeight(h)` calls the sub-providers at positions `0..i` and
no later one, and returns exactly `t` with no error. -/
theorem CacheProvider_GetByHeight_exact_match {W : Type} (c : CacheProvider W) (h : Int)
    (w : W) (i : Nat) (t : Seed)
    (hh : 1 ≤ h)
    (hle : ∀ r ∈ heightAll h c.Providers w, r.2 = none → r.1.Height ≤ h)
    (hi : (heightAll h c.Providers w)[i]? = some (t, none))
    (ht : t.Height = h)
    (hfirst : ∀ j r, j < i → (heightAll h c.Providers w)[j]? = some r →
      ¬ (r.2 = none ∧ r.1.Height = h)) :
    (c.GetByHeight h w).calls.map Prod.fst = List.range (i + 1) ∧
    (c.GetByHeight h w).world = heightWorld h (c.Providers.take (i + 1)) w ∧
    (c.GetByHeight h w).s = t ∧
    (c.GetByHeight h w).err = none := by
  have hstop := heightStop_first h t _ i hi ht hfirst
  have hlt : i < (heightAll h c.Providers w).length := by
    rcases Nat.lt_or_ge i (heightAll h c.Providers w).length with hl | hl
    · exact hl
    · rw [List.getElem?_eq_none hl] at hi
      exact absurd hi (by simp)
  have hs : (c.GetByHeight h w).s = t := by
    rw [GetByHeight_s, hstop]
    refine bestSeed_exact h t _ i Seed.zero (by rw [Seed_zero_Height]; omega) hi ht ?_
    intro j r hji hr hnone
    have h1 := hle r (List.getElem?_mem hr) hnone
    have h2 : ¬ r.1.Height = h := fun heq => hfirst j r hji hr ⟨hnone, heq⟩
    omega
  refine ⟨?_, ?_, hs, ?_⟩
  · rw [GetByHeight_calls, hstop, List.enumFrom_map_fst, List.length_take,
      Nat.min_eq_left (by omega), List.range_eq_range']
  · rw [GetByHeight_world, hstop]
  · rw [GetByHeight_err, hs, ht, if_pos (by omega)]

/-- C4 at a concrete input: of three sub-providers the first holds a height-20
seed, the second the height-25 seed asked for, the third a height-25 seed with
another hash; the first two are called and the seed of the second is returned. -/
theorem CacheProvider_GetByHeight_exact_match_witness :
    (CacheProvider.GetByHeight
        (NewCacheProvider [probe 0 none (mkSeed 20 [1]) none, probe 1 none (mkSeed 25 [2]) none,
          probe 2 none (mkSeed 25 [3]) none]) 25 []).calls.map Prod.fst = List.range 2 ∧
    (CacheProvider.GetByHeight
        (NewCacheProvider [probe 0 none (mkSeed 20 [1]) none, probe 1 none (mkSeed 25 [2]) none,
          probe 2 none (mkSeed 25 [3]) none]) 25 []).world = [0, 1] ∧
    (CacheProvider.GetByHeight
        (NewCacheProvider [probe 0 none (mkSeed 20 [1]) none, probe 1 none (mkSeed 25 [2]) none,
          probe 2 none (mkSeed 25 [3]) none]) 25 []).s = mkSeed 25 [2] ∧
    (CacheProvider.GetByHeight
        (NewCacheProvider [probe 0 none (mkSeed 20 [1]) none, probe 1 none (mkSeed 25 [2]) none,
          probe 2 none (mkSeed 25 [3]) none]) 25 []).err = none :=
  CacheProvider_GetByHeight_exact_match
    (NewCacheProvider [probe 0 none (mkSeed 20 [1]) none, probe 1 none (mkSeed 25 [2]) none,
      probe 2 none (mkSeed 25 [3]) none]) 25 [] 1 (mkSeed 25 [2])
    (by decide) (by decide) (by rfl) (by rfl)
    (by
      intro j r hj hr
      have hj0 : j = 0 := by omega
      subst hj0
      have hr0 : r = (mkSeed 20 [1], none) := by
        have : some (mkSeed 20 [1], (none : Option Error)) = some r := hr
        exact (Option.some.inj this).symm
      subst hr0
      decide)

/-- C5 fails as stated: the first sub-provider returns a seed of height 0
without error and the second returns seed-not-found; the call returns the
error of the second, and the zero seed instead of the seed found. -/
theorem CacheProvider_GetByHeight_match_height_zero_hidden :
    (∃ q ∈ (CacheProvider.GetByHeight
        (NewCacheProvider [probe 0 none (mkSeed 0 [1]) none,
          probe 1 none Seed.zero (some Error.seedNotFound)]) 5 []).calls,
      q.2.2 = none ∧ q.2.1 = mkSeed 0 [1]) ∧
    (CacheProvider.GetByHeight
        (NewCacheProvider [probe 0 none (mkSeed 0 [1]) none,
          probe 1 none Seed.zero (some Error.seedNotFound)]) 5 []).err =
      some Error.seedNotFound ∧
    (CacheProvider.GetByHeight
        (NewCacheProvider [probe 0 none (mkSeed 0 [1]) none,
          probe 1 none Seed.zero (some Error.seedNotFound)]) 5 []).s = Seed.zero ∧
    Seed.zero ≠ mkSeed 0 [1] := by
  refine ⟨⟨(0, mkSeed 0 [1], none), ?_, rfl, rfl⟩, rfl, rfl, by decide⟩
  decide

/-- C5, amended: when at least one queried sub-provider returned without error
a seed of height at least 1, `CacheProvider.GetByHeight(h)` returns no error,
whatever the later sub-providers returned, and the returned seed is the best
one: a seed that a queried sub-provider returned without error, of height not
below that of any seed so returned. -/
theorem CacheProvider_GetByHeight_keeps_match {W : Type} (c : CacheProvider W) (h : Int)
    (w : W)
    (hmatch : ∃ q ∈ (c.GetByHeight h w).calls, q.2.2 = none ∧ 1 ≤ q.2.1.Height) :
    (c.GetByHeight h w).err = none ∧
    (∃ q ∈ (c.GetByHeight h w).calls, q.2.2 = none ∧ (c.GetByHeight h w).s = q.2.1) ∧
    (∀ q ∈ (c.GetByHeight h w).calls, q.2.2 = none →
      q.2.1.Height ≤ (c.GetByHeight h w).s.Height) := by
  have hsnd := GetByHeight_calls_snd c h w
  have hs := GetByHeight_s c h w
  have hge : ∀ q ∈ (c.GetByHeight h w).calls, q.2.2 = none →
      q.2.1.Height ≤ (c.GetByHeight h w).s.Height := by
    intro q hq hnone
    have hmem : q.2 ∈ (c.GetByHeight h w).calls.map Prod.snd := List.mem_map_of_mem _ hq
    rw [hsnd] at hmem
    rw [hs]
    exact bestSeed_ge _ _ q.2 hmem hnone
  rcases hmatch with ⟨q, hq, hnone, hq1⟩
  have hpos : 1 ≤ (c.GetByHeight h w).s.Height := le_trans hq1 (hge q hq hnone)
  refine ⟨?_, ?_, hge⟩
  · rw [GetByHeight_err, if_pos (by omega)]
  · rcases bestSeed_mem
      ((heightAll h c.Providers w).take (heightStop h (heightAll h c.Providers w)))
      Seed.zero with hz | ⟨r, hr, hrn, hb⟩
    · rw [← hs] at hz
      rw [hz, Seed_zero_Height] at hpos
      omega
    · rw [← hsnd] at hr
      rcases List.mem_map.mp hr with ⟨q2, hq2, hq2r⟩
      refine ⟨q2, hq2, ?_, ?_⟩
      · rw [hq2r]; exact hrn
      · rw [hq2r, hs]; exact hb

/-- C5 amended, at a concrete input: the first sub-provider returns a
height-20 seed and the last one fails; the seed is returned with no error. -/
theorem CacheProvider_GetByHeight_keeps_match_witness :
    (CacheProvider.GetByHeight
        (NewCacheProvider [probe 0 none (mkSeed 20 [1]) none,
          probe 1 none Seed.zero (some (Error.new "unreachable"))]) 25 []).err = none ∧
    (CacheProvider.GetByHeight
        (NewCacheProvider [probe 0 none (mkSeed 20 [1]) none,
          probe 1 none Seed.zero (some (Error.new "unreachable"))]) 25 []).s = mkSeed 20 [1] :=
  ⟨(CacheProvider_GetByHeight_keeps_match
      (NewCacheProvider [probe 0 none (mkSeed 20 [1]) none,
        probe 1 none Seed.zero (some (Error.new "unreachable"))]) 25 []
      ⟨(0, mkSeed 20 [1], none), List.mem_cons_self _ _, rfl, by decide⟩).1, rfl⟩

/-- C6: when the list of sub-providers is not empty and every `GetByHeight(h)`
call fails, `CacheProvider.GetByHeight(h)` calls every sub-provider, in order,
and returns exactly the error of the last sub-provider of the list. -/
theorem CacheProvider_GetByHeight_all_fail {W : Type} (c : CacheProvider W) (h : Int) (w : W)
    (hne : c.Providers ≠ [])
    (hall : ∀ r ∈ heightAll h c.Providers w, r.2 ≠ none) :
    (c.GetByHeight h w).calls.map Prod.fst = List.range c.Providers.length ∧
    (c.GetByHeight h w).world = heightWorld h c.Providers w ∧
    (c.GetByHeight h w).err ≠ none ∧
    (heightAll h c.Providers w).getLast?.map Prod.snd = some (c.GetByHeight h w).err := by
  have hstop := heightStop_all_err h _ hall
  have hrs : heightAll h c.Providers w ≠ [] := by
    intro hnil
    have := length_heightAll h c.Providers w
    rw [hnil] at this
    exact hne (List.length_eq_zero.mp this.symm)
  have hz : (c.GetByHeight h w).s = Seed.zero := by
    rw [GetByHeight_s, hstop, List.take_length]
    exact bestSeed_all_err _ _ hall
  have herr : (c.GetByHeight h w).err = lastErr none (heightAll h c.Providers w) := by
    rw [GetByHeight_err, hz, Seed_zero_Height, if_neg (by omega), hstop, List.take_length]
  refine ⟨?_, ?_, ?_, ?_⟩
  · rw [GetByHeight_calls, hstop, List.take_length, List.enumFrom_map_fst,
      length_heightAll, List.range_eq_range']
  · rw [GetByHeight_world, hstop, length_heightAll, List.take_length]
  · rw [herr]
    exact lastErr_all_err _ _ hrs hall
  · rw [herr]
    exact lastErr_eq_getLast _ _ hrs

/-- C6 at a concrete input: two failing sub-providers; both are called and the
error of the second is returned. -/
theorem CacheProvider_GetByHeight_all_fail_witness :
    (CacheProvider.GetByHeight
        (NewCacheProvider [probe 0 none Seed.zero (some (Error.new "unreachable")),
          probe 1 none Seed.zero (some Error.seedNotFound)]) 25 []).calls.map Prod.fst =
      List.range 2 ∧
    (CacheProvider.GetByHeight
        (NewCacheProvider [probe 0 none Seed.zero (some (Error.new "unreachable")),
          probe 1 none Seed.zero (some Error.seedNotFound)]) 25 []).err =
      some Error.seedNotFound :=
  ⟨(CacheProvider_GetByHeight_all_fail
      (NewCacheProvider [probe 0 none Seed.zero (some (Error.new "unreachable")),
        probe 1 none Seed.zero (some Error.seedNotFound)]) 25 []
      (by simp [NewCacheProvider]) (by decide)).1, rfl⟩

/-! ### GetByHash -/

theorem length_hashAll {W : Type} (hash : ByteSlice) :
    ∀ (ps : List (Provider W)) (w : W), (hashAll hash ps w).length = ps.length
  | [], _ => rfl
  | p :: ps, w => by simp [hashAll, length_hashAll hash ps]

/-- The loop calls exactly the first `hashStop` providers of the reference
run; its seed and error are those of the last call made. -/
theorem GetByHashLoop_eq {W : Type} (hash : ByteSlice) :
    ∀ (ps : List (Provider W)) (i : Nat) (s : Seed) (err : Option Error) (w : W),
      GetByHashLoop hash ps i s err w =
        { s := lastSeed s ((hashAll hash ps w).take (hashStop (hashAll hash ps w)))
          err := lastErr err ((hashAll hash ps w).take (hashStop (hashAll hash ps w)))
          world := hashWorld hash (ps.take (hashStop (hashAll hash ps w))) w
          calls := List.enumFrom i
            ((hashAll hash ps w).take (hashStop (hashAll hash ps w))) }
  | [], i, s, err, w => by
    simp [GetByHashLoop, hashAll, hashStop, hashWorld, lastSeed, lastErr]
  | p :: ps, i, s, err, w => by
    rcases hp : p.GetByHash hash w with ⟨ts, e, w1⟩
    cases e with
    | none => simp [GetByHashLoop, hashAll, hashStop, hashWorld, lastSeed, lastErr, hp]
    | some e =>
      simp [GetByHashLoop, hashAll, hashStop, hashWorld, lastSeed, lastErr, hp,
        GetByHashLoop_eq hash ps (i + 1) ts (some e) w1]

theorem hashStop_first (t : Seed) :
    ∀ (rs : List (Seed × Option Error)) (i : Nat),
      rs[i]? = some (t, none) →
      (∀ j r, j < i → rs[j]? = some r → r.2 ≠ none) →
      hashStop rs = i + 1
  | [], i, hi, _ => by simp at hi
  | (ts, none) :: rest, 0, _, _ => by simp [hashStop]
  | (ts, some e) :: rest, 0, hi, _ => by simp at hi
  | (ts, none) :: rest, i + 1, _, hj => by
    have h0 := hj 0 (ts, none) (by omega) (by simp)
    simp at h0
  | (ts, some e) :: rest, i + 1, hi, hj => by
    have ih := hashStop_first t rest i (by simpa using hi)
      (fun j r hji hr => hj (j + 1) r (by omega) (by simpa using hr))
    simp [hashStop, ih]

theorem hashStop_all_err :
    ∀ (rs : List (Seed × Option Error)), (∀ r ∈ rs, r.2 ≠ none) → hashStop rs = rs.length
  | [], _ => rfl
  | (ts, none) :: rest, hall => by
    have h0 := hall (ts, none) (List.mem_cons_self _ _)
    simp at h0
  | (ts, some e) :: rest, hall => by
    have ih := hashStop_all_err rest (fun r hr => hall r (List.mem_cons_of_mem _ hr))
    simp [hashStop, ih]

theorem last_take_succ :
    ∀ (rs : List (Seed × Option Error)) (i : Nat) (r : Seed × Option Error) (s : Seed)
      (e : Option Error), rs[i]? = some r →
      lastSeed s (rs.take (i + 1)) = r.1 ∧ lastErr e (rs.take (i + 1)) = r.2
  | [], i, r, s, e, hi => by simp at hi
  | x :: rest, 0, r, s, e, hi => by
    have : x = r := by simpa using hi
    simp [lastSeed, lastErr, this]
  | x :: rest, i + 1, r, s, e, hi => by
    simpa [lastSeed, lastErr] using last_take_succ rest i r x.1 x.2 (by simpa using hi)

theorem lastSeed_eq_getLast :
    ∀ (rs : List (Seed × Option Error)) (s : Seed), rs ≠ [] →
      rs.getLast?.map Prod.fst = some (lastSeed s rs)
  | [], _, hne => absurd rfl hne
  | [r], s, _ => by simp [lastSeed]
  | r :: r2 :: rest, s, _ => by
    have ih := lastSeed_eq_getLast (r2 :: rest) r.1 (by simp)
    simpa [lastSeed, List.getLast?_cons_cons] using ih

/-- C7: for a non-empty list of sub-providers, `CacheProvider.GetByHash` calls
them in list order; when the first to succeed is at position `i` and returns
`t`, the positions `0..i` are called and no later one, and `t` is returned with
no error; when every sub-provider fails, all are called and the error (and
seed) returned are those of the last sub-provider of the list. -/
theorem CacheProvider_GetByHash_first_success {W : Type} (c : CacheProvider W)
    (hash : ByteSlice) (w : W) (hne : c.Providers ≠ []) :
    (∀ (i : Nat) (t : Seed),
        (hashAll hash c.Providers w)[i]? = some (t, none) →
        (∀ j r, j < i → (hashAll hash c.Providers w)[j]? = some r → r.2 ≠ none) →
        (c.GetByHash hash w).calls.map Prod.fst = List.range (i + 1) ∧
        (c.GetByHash hash w).world = hashWorld hash (c.Providers.take (i + 1)) w ∧
        (c.GetByHash hash w).s = t ∧
        (c.GetByHash hash w).err = none) ∧
    ((∀ r ∈ hashAll hash c.Providers w, r.2 ≠ none) →
        (c.GetByHash hash w).calls.map Prod.fst = List.range c.Providers.length ∧
        (c.GetByHash hash w).world = hashWorld hash c.Providers w ∧
        (c.GetByHash hash w).err ≠ none ∧
        (hashAll hash c.Providers w).getLast? =
          some ((c.GetByHash hash w).s, (c.GetByHash hash w).err)) := by
  have hloop := GetByHashLoop_eq hash c.Providers 0 Seed.zero none w
  constructor
  · intro i t hi hj
    have hstop := hashStop_first t _ i hi hj
    have hlt : i < (hashAll hash c.Providers w).length := by
      rcases Nat.lt_or_ge i (hashAll hash c.Providers w).length with hl | hl
      · exact hl
      · rw [List.getElem?_eq_none hl] at hi
        exact absurd hi (by simp)
    have hlast := last_take_succ _ i (t, none) Seed.zero none hi
    rw [hstop] at hloop
    unfold CacheProvider.GetByHash
    rw [hloop]
    refine ⟨?_, rfl, hlast.1, hlast.2⟩
    dsimp only
    rw [List.enumFrom_map_fst, List.length_take, Nat.min_eq_left (by omega),
      List.range_eq_range']
  · intro hall
    have hstop := hashStop_all_err _ hall
    have hrs : hashAll hash c.Providers w ≠ [] := by
      intro hnil
      have := length_hashAll hash c.Providers w
      rw [hnil] at this
      exact hne (List.length_eq_zero.mp this.symm)
    rw [hstop, List.take_length] at hloop
    unfold CacheProvider.GetByHash
    rw [hloop]
    dsimp only
    refine ⟨?_, ?_, lastErr_all_err _ _ hrs hall, ?_⟩
    · rw [List.enumFrom_map_fst, length_hashAll, List.range_eq_range']
    · rw [length_hashAll, List.take_length]
    · have h1 := lastSeed_eq_getLast (hashAll hash c.Providers w) Seed.zero hrs
      have h2 := lastErr_eq_getLast (hashAll hash c.Providers w) none hrs
      cases hg : (hashAll hash c.Providers w).getLast? with
      | none => rw [hg] at h1; simp at h1
      | some x =>
        rw [hg] at h1 h2
        simp only [Option.map_some', Option.some.injEq] at h1 h2
        rw [← h1, ← h2]

/-- C7 at a concrete input: the first sub-provider misses, the second holds the
seed, the third holds another seed; the first two are called and the seed of
the second is returned. -/
theorem CacheProvider_GetByHash_first_success_witness :
    (CacheProvider.GetByHash
        (NewCacheProvider [probe 0 none Seed.zero (some Error.seedNotFound),
          probe 1 none (mkSeed 20 [7]) none, probe 2 none (mkSeed 30 [7]) none])
        [7] []).calls.map Prod.fst = List.range 2 ∧
    (CacheProvider.GetByHash
        (NewCacheProvider [probe 0 none Seed.zero (some Error.seedNotFound),
          probe 1 none (mkSeed 20 [7]) none, probe 2 none (mkSeed 30 [7]) none])
        [7] []).world = [0, 1] ∧
    (CacheProvider.GetByHash
        (NewCacheProvider [probe 0 none Seed.zero (some Error.seedNotFound),
          probe 1 none (mkSeed 20 [7]) none, probe 2 none (mkSeed 30 [7]) none])
        [7] []).s = mkSeed 20 [7] ∧
    (CacheProvider.GetByHash
        (NewCacheProvider [probe 0 none Seed.zero (some Error.seedNotFound),
          probe 1 none (mkSeed 20 [7]) none, probe 2 none (mkSeed 30 [7]) none])
        [7] []).err = none :=
  (CacheProvider_GetByHash_first_success
      (NewCacheProvider [probe 0 none Seed.zero (some Error.seedNotFound),
        probe 1 none (mkSeed 20 [7]) none, probe 2 none (mkSeed 30 [7]) none])
      [7] [] (by simp [NewCacheProvider])).1 1 (mkSeed 20 [7]) (by rfl)
    (by
      intro j r hj hr
      have hj0 : j = 0 := by omega
      subst hj0
      have hr0 : r = (Seed.zero, some Error.seedNotFound) := by
        have : some (Seed.zero, some Error.seedNotFound) = some r := hr
        exact (Option.some.inj this).symm
      subst hr0
      decide)

/-! ### MultiSig -/

/-- C8: `Sign(pubkey, sig)` returns an error exactly when `pubkey` or `sig` is
nil, and then leaves the receiver (payload and signature list) unchanged;
otherwise it returns no error and appends the pair `(pubkey, sig)` at the end
of the signature list, keeping the payload and the earlier pairs, whatever
the signature and however many pairs are already stored. -/
theorem MultiSig_Sign_spec {PubKey Signature : Type} (s : MultiSig PubKey Signature)
    (pubkey : Option PubKey) (sig : Option Signature) :
    ((s.Sign pubkey sig).1 ≠ none ↔ (pubkey = none ∨ sig = none)) ∧
    ((s.Sign pubkey sig).1 ≠ none → (s.Sign pubkey sig).2 = s) ∧
    (∀ pk sg, pubkey = some pk → sig = some sg →
      (s.Sign pubkey sig).1 = none ∧
      (s.Sign pubkey sig).2.sigs = s.sigs ++ [{ sig := sg, pubkey := pk }] ∧
      (s.Sign pubkey sig).2.data = s.data) := by
  cases pubkey <;> cases sig <;> simp [MultiSig.Sign]

theorem signAll_data {PubKey Signature : Type} :
    ∀ (pairs : List (PubKey × Signature)) (s : MultiSig PubKey Signature),
      (signAll s pairs).data = s.data
  | [], _ => rfl
  | p :: rest, s => by
    rw [signAll, signAll_data rest]
    rfl

theorem signAll_sigs {PubKey Signature : Type} :
    ∀ (pairs : List (PubKey × Signature)) (s : MultiSig PubKey Signature),
      (signAll s pairs).sigs =
        s.sigs ++ pairs.map (fun p => ({ sig := p.2, pubkey := p.1 } : signed PubKey Signature))
  | [], s => by simp [signAll]
  | p :: rest, s => by
    rw [signAll, signAll_sigs rest]
    simp [MultiSig.Sign]

theorem take_set_succ {α : Type} (x : α) :
    ∀ (l : List α) (i : Nat), i < l.length → (l.set i x).take (i + 1) = l.take i ++ [x]
  | [], i, hi => by simp at hi
  | a :: l, 0, _ => by simp
  | a :: l, i + 1, hi => by
    have ih := take_set_succ x l i (by simpa using hi)
    simp [ih]

/-- When every remaining pair verifies, the loop fills the remaining slots of
`keys` with the stored keys, in order, and verifies each pair once. -/
theorem SignersLoop_ok {PubKey Signature : Type}
    (VerifyBytes : PubKey → ByteSlice → Signature → Bool) (keyBytes : PubKey → ByteSlice)
    (data : ByteSlice) :
    ∀ (sigs : List (signed PubKey Signature)) (i : Nat) (keys : List (Option PubKey)),
      (∀ ms ∈ sigs, VerifyBytes ms.pubkey data ms.sig = true) →
      keys.length = i + sigs.length →
      SignersLoop VerifyBytes keyBytes data sigs i keys =
        { keys := keys.take i ++ sigs.map (fun ms => some ms.pubkey)
          err := none
          verified := List.range' i sigs.length }
  | [], i, keys, _, hlen => by
    have hle : keys.length ≤ i := by simp at hlen; omega
    simp [SignersLoop, List.take_of_length_le hle]
  | ms :: rest, i, keys, hall, hlen => by
    have hms := hall ms (List.mem_cons_self _ _)
    have hlt : i < keys.length := by simp at hlen; omega
    have ih := SignersLoop_ok VerifyBytes keyBytes data rest (i + 1)
      (keys.set i (some ms.pubkey)) (fun m hm => hall m (List.mem_cons_of_mem _ hm))
      (by simp at hlen ⊢; omega)
    simp [SignersLoop, hms, ih, take_set_succ _ keys i hlt, List.range'_succ]

/-- When the pair at offset `k` is the first that fails verification, the loop
returns nil keys and the mismatch error for that index and key, after
verifying the pairs up to and including it. -/
theorem SignersLoop_fail {PubKey Signature : Type}
    (VerifyBytes : PubKey → ByteSlice → Signature → Bool) (keyBytes : PubKey → ByteSlice)
    (data : ByteSlice) (bad : signed PubKey Signature) :
    ∀ (sigs : List (signed PubKey Signature)) (k i : Nat) (keys : List (Option PubKey)),
      sigs[k]? = some bad → VerifyBytes bad.pubkey data bad.sig = false →
      (∀ j m, j < k → sigs[j]? = some m → VerifyBytes m.pubkey data m.sig = true) →
      SignersLoop VerifyBytes keyBytes data sigs i keys =
        { keys := []
          err := some (Error.signatureMismatch (i + k) (keyBytes bad.pubkey))
          verified := List.range' i (k + 1) }
  | [], k, i, keys, hk, _, _ => by simp at hk
  | ms :: rest, 0, i, keys, hk, hbad, _ => by
    have : ms = bad := by simpa using hk
    subst this
    simp [SignersLoop, hbad]
  | ms :: rest, k + 1, i, keys, hk, hbad, hj => by
    have hms := hj 0 ms (by omega) (by simp)
    have ih := SignersLoop_fail VerifyBytes keyBytes data bad rest k (i + 1)
      (keys.set i (some ms.pubkey)) (by simpa using hk) hbad
      (fun j m hjk hm => hj (j + 1) m (by omega) (by simpa using hm))
    simp [SignersLoop, hms, ih, List.range'_succ]
    omega

/-- A list with a pair that fails verification has a first such pair. -/
theorem exists_first_fail {PubKey Signature : Type}
    (VerifyBytes : PubKey → ByteSlice → Signature → Bool) (data : ByteSlice) :
    ∀ (sigs : List (signed PubKey Signature)),
      (∃ ms ∈ sigs, VerifyBytes ms.pubkey data ms.sig = false) →
      ∃ (k : Nat) (bad : signed PubKey Signature),
        sigs[k]? = some bad ∧ VerifyBytes bad.pubkey data bad.sig = false ∧
        ∀ (j : Nat) (m : signed PubKey Signature), j < k → sigs[j]? = some m →
          VerifyBytes m.pubkey data m.sig = true
  | [], h => by simp at h
  | ms :: rest, h => by
    cases hv : VerifyBytes ms.pubkey data ms.sig with
    | false => exact ⟨0, ms, by simp, hv, fun j m hj _ => absurd hj (by omega)⟩
    | true =>
      have hrest : ∃ m ∈ rest, VerifyBytes m.pubkey data m.sig = false := by
        rcases h with ⟨m, hm, hmv⟩
        rcases List.mem_cons.mp hm with heq | hmem
        · subst heq
          rw [hv] at hmv
          exact absurd hmv (by simp)
        · exact ⟨m, hmem, hmv⟩
      rcases exists_first_fail VerifyBytes data rest hrest with ⟨k, bad, hk, hbad, hmin⟩
      refine ⟨k + 1, bad, by simpa using hk, hbad, ?_⟩
      intro j m hj hm
      cases j with
      | zero =>
        have : ms = m := by simpa using hm
        rw [← this]
        exact hv
      | succ j => exact hmin j m (by omega) (by simpa using hm)

/-- C9: after `k ≥ 1` successful `Sign` calls with the pairs `pairs` on
`NewMulti(d)`, `Signers` succeeds exactly when every pair verifies against
`d`, and then returns the keys of the pairs, all of them, in call order. -/
theorem MultiSig_Signers_after_signing {PubKey Signature : Type}
    (VerifyBytes : PubKey → ByteSlice → Signature → Bool) (keyBytes : PubKey → ByteSlice)
    (d : ByteSlice) (pairs : List (PubKey × Signature)) (hk : pairs ≠ []) :
    (((signAll (NewMulti d) pairs).Signers VerifyBytes keyBytes).err = none ↔
      ∀ p ∈ pairs, VerifyBytes p.1 d p.2 = true) ∧
    (((signAll (NewMulti d) pairs).Signers VerifyBytes keyBytes).err = none →
      ((signAll (NewMulti d) pairs).Signers VerifyBytes keyBytes).keys =
        pairs.map (fun p => some p.1)) := by
  have hsigs : (signAll (NewMulti d) pairs).sigs =
      pairs.map (fun p => ({ sig := p.2, pubkey := p.1 } : signed PubKey Signature)) := by
    rw [signAll_sigs]
    rfl
  have hdata : (signAll (NewMulti d) pairs).data = d := signAll_data pairs _
  have hlen : ¬ (signAll (NewMulti d) pairs).sigs.length = 0 := by
    rw [hsigs, List.length_map]
    exact fun h0 => hk (List.length_eq_zero.mp h0)
  by_cases hall : ∀ p ∈ pairs, VerifyBytes p.1 d p.2 = true
  · have hall2 : ∀ ms ∈ (signAll (NewMulti d) pairs).sigs,
        VerifyBytes ms.pubkey d ms.sig = true := by
      intro ms hms
      rw [hsigs] at hms
      rcases List.mem_map.mp hms with ⟨p, hp, rfl⟩
      exact hall p hp
    have hrun := SignersLoop_ok VerifyBytes keyBytes d _ 0
      (List.replicate (signAll (NewMulti d) pairs).sigs.length none) hall2 (by simp)
    have hS : (signAll (NewMulti d) pairs).Signers VerifyBytes keyBytes =
        { keys := pairs.map (fun p => some p.1), err := none,
          verified := List.range' 0 (signAll (NewMulti d) pairs).sigs.length } := by
      unfold MultiSig.Signers
      rw [if_neg hlen, hdata, hrun, hsigs]
      simp [Function.comp_def]
    rw [hS]
    exact ⟨⟨fun _ => hall, fun _ => rfl⟩, fun _ => rfl⟩
  · have hex : ∃ ms ∈ (signAll (NewMulti d) pairs).sigs,
        VerifyBytes ms.pubkey d ms.sig = false := by
      rw [hsigs]
      simp only [not_forall, Bool.not_eq_true] at hall
      rcases hall with ⟨p, hp, hpv⟩
      exact ⟨_, List.mem_map_of_mem _ hp, hpv⟩
    rcases exists_first_fail VerifyBytes d _ hex with ⟨k, bad, hkb, hbad, hmin⟩
    have hrun := SignersLoop_fail VerifyBytes keyBytes d bad _ k 0
      (List.replicate (signAll (NewMulti d) pairs).sigs.length none) hkb hbad hmin
    have herr : ((signAll (NewMulti d) pairs).Signers VerifyBytes keyBytes).err ≠ none := by
      unfold MultiSig.Signers
      rw [if_neg hlen, hdata, hrun]
      simp
    exact ⟨⟨fun h => absurd h herr, fun h => absurd h hall⟩, fun h => absurd h herr⟩

/-- C9 at a concrete input: three valid pairs, the first key used twice. -/
theorem MultiSig_Signers_after_signing_witness :
    ((signAll (NewMulti [1, 2]) [(5, 7), (9, 11), (5, 7)]).Signers
        toyVerify toyKeyBytes).err = none ∧
    ((signAll (NewMulti [1, 2]) [(5, 7), (9, 11), (5, 7)]).Signers
        toyVerify toyKeyBytes).keys = [some 5, some 9, some 5] :=
  ⟨((MultiSig_Signers_after_signing toyVerify toyKeyBytes [1, 2]
        [(5, 7), (9, 11), (5, 7)] (by decide)).1).2 (by decide),
    rfl⟩

/-- C10: when some stored pair does not verify against the payload, `Signers`
returns nil keys and the signature-mismatch error carrying the smallest index
whose pair fails and the bytes of the key of that pair, and verifies no pair
after that index; when the first stored pair fails, the index is 0. -/
theorem MultiSig_Signers_first_mismatch {PubKey Signature : Type}
    (VerifyBytes : PubKey → ByteSlice → Signature → Bool) (keyBytes : PubKey → ByteSlice)
    (s : MultiSig PubKey Signature)
    (hbad : ∃ ms ∈ s.sigs, VerifyBytes ms.pubkey s.data ms.sig = false) :
    (∃ (i : Nat) (bad : signed PubKey Signature), s.sigs[i]? = some bad ∧
      VerifyBytes bad.pubkey s.data bad.sig = false ∧
      (∀ (j : Nat) (m : signed PubKey Signature), j < i → s.sigs[j]? = some m →
        VerifyBytes m.pubkey s.data m.sig = true) ∧
      (s.Signers VerifyBytes keyBytes).keys = [] ∧
      (s.Signers VerifyBytes keyBytes).err =
        some (Error.signatureMismatch i (keyBytes bad.pubkey)) ∧
      (s.Signers VerifyBytes keyBytes).verified = List.range (i + 1)) ∧
    (∀ first : signed PubKey Signature, s.sigs[0]? = some first →
      VerifyBytes first.pubkey s.data first.sig = false →
      (s.Signers VerifyBytes keyBytes).err =
        some (Error.signatureMismatch 0 (keyBytes first.pubkey))) := by
  have hlen : ¬ s.sigs.length = 0 := by
    rcases hbad with ⟨ms, hms, _⟩
    intro h0
    rw [List.length_eq_zero.mp h0] at hms
    simp at hms
  constructor
  · rcases exists_first_fail VerifyBytes s.data s.sigs hbad with ⟨k, bad, hkb, hbv, hmin⟩
    have hrun := SignersLoop_fail VerifyBytes keyBytes s.data bad s.sigs k 0
      (List.replicate s.sigs.length none) hkb hbv hmin
    refine ⟨k, bad, hkb, hbv, hmin, ?_, ?_, ?_⟩ <;>
      (unfold MultiSig.Signers; rw [if_neg hlen, hrun])
    · simp
    · simp [List.range_eq_range']
  · intro first h0 hv
    have hrun := SignersLoop_fail VerifyBytes keyBytes s.data first s.sigs 0 0
      (List.replicate s.sigs.length none) h0 hv (fun j m hj _ => absurd hj (by omega))
    unfold MultiSig.Signers
    rw [if_neg hlen, hrun]

/-- C10 at a concrete input: the second of three pairs does not verify. -/
theorem MultiSig_Signers_first_mismatch_witness :
    ((signAll (NewMulti [1, 2]) [(5, 7), (9, 10), (5, 0)]).Signers
        toyVerify toyKeyBytes).keys = [] ∧
    ((signAll (NewMulti [1, 2]) [(5, 7), (9, 10), (5, 0)]).Signers
        toyVerify toyKeyBytes).err = some (Error.signatureMismatch 1 [9]) ∧
    ((signAll (NewMulti [1, 2]) [(5, 7), (9, 10), (5, 0)]).Signers
        toyVerify toyKeyBytes).verified = [0, 1] ∧
    ∃ (i : Nat) (bad : signed Nat Nat),
      (signAll (NewMulti [1, 2]) [(5, 7), (9, 10), (5, 0)]).sigs[i]? = some bad ∧
      ((signAll (NewMulti [1, 2]) [(5, 7), (9, 10), (5, 0)]).Signers
        toyVerify toyKeyBytes).err = some (Error.signatureMismatch i (toyKeyBytes bad.pubkey)) :=
  ⟨rfl, rfl, rfl,
    (MultiSig_Signers_first_mismatch toyVerify toyKeyBytes
      (signAll (NewMulti [1, 2]) [(5, 7), (9, 10), (5, 0)])
      ⟨{ sig := 10, pubkey := 9 }, by simp [signAll, MultiSig.Sign, NewMulti], by decide⟩).1.elim
      (fun i hi => hi.elim (fun bad hb => ⟨i, bad, hb.1, hb.2.2.2.2.1⟩))⟩

/-! ### MultiSig: never signed, and the payload -/

/-- The error of the verification loop is nil or a signature mismatch. -/
theorem SignersLoop_err_cases {PubKey Signature : Type}
    (VerifyBytes : PubKey → ByteSlice → Signature → Bool) (keyBytes : PubKey → ByteSlice)
    (data : ByteSlice) :
    ∀ (sigs : List (signed PubKey Signature)) (i : Nat) (keys : List (Option PubKey)),
      (SignersLoop VerifyBytes keyBytes data sigs i keys).err = none ∨
        ∃ k key, (SignersLoop VerifyBytes keyBytes data sigs i keys).err =
          some (Error.signatureMismatch k key)
  | [], _, _ => Or.inl rfl
  | ms :: rest, i, keys => by
    cases hv : VerifyBytes ms.pubkey data ms.sig with
    | false => exact Or.inr ⟨i, keyBytes ms.pubkey, by simp [SignersLoop, hv]⟩
    | true =>
      simpa [SignersLoop, hv] using
        SignersLoop_err_cases VerifyBytes keyBytes data rest (i + 1)
          (keys.set i (some ms.pubkey))

/-- C11: `Signers` fails with the never-signed error exactly when the
signature list is empty, and `SignBytes` fails exactly then, with the same
error; on a non-empty list `SignBytes` returns the encoded bytes and no error,
whatever the stored signatures. -/
theorem MultiSig_never_signed {PubKey Signature : Type}
    (VerifyBytes : PubKey → ByteSlice → Signature → Bool) (keyBytes : PubKey → ByteSlice)
    (encode : MultiSig PubKey Signature → ByteSlice) (s : MultiSig PubKey Signature) :
    ((s.Signers VerifyBytes keyBytes).err = some (Error.new "Never signed") ↔ s.sigs = []) ∧
    ((s.SignBytes encode).2 = some (Error.new "Never signed") ↔ s.sigs = []) ∧
    ((s.SignBytes encode).2 ≠ none ↔ s.sigs = []) ∧
    (s.sigs ≠ [] → s.SignBytes encode = (encode s, none)) := by
  by_cases hs : s.sigs = []
  · have hlen : s.sigs.length = 0 := by rw [hs]; rfl
    simp [MultiSig.Signers, MultiSig.SignBytes, hlen, hs]
  · have hlen : ¬ s.sigs.length = 0 := fun h0 => hs (List.length_eq_zero.mp h0)
    refine ⟨?_, ?_, ?_, ?_⟩
    · constructor
      · intro herr
        unfold MultiSig.Signers at herr
        rw [if_neg hlen] at herr
        rcases SignersLoop_err_cases VerifyBytes keyBytes s.data s.sigs 0
          (List.replicate s.sigs.length none) with h0 | ⟨k, key, h0⟩
        · rw [h0] at herr
          exact absurd herr (by simp)
        · rw [h0] at herr
          exact absurd herr (by simp)
      · intro h
        exact absurd h hs
    · simp [MultiSig.SignBytes, hlen, hs]
    · simp [MultiSig.SignBytes, hlen, hs]
    · intro _
      simp [MultiSig.SignBytes, hlen]

/-- C11 at a concrete input: one stored pair whose signature does not verify;
`SignBytes` returns the encoding with no error and `Signers` fails with the
mismatch error, not with the never-signed error. -/
theorem MultiSig_never_signed_witness :
    (signAll (NewMulti [1, 2]) [(5, 0)]).SignBytes toyEncode = ([1, 2, 1], none) ∧
    ((signAll (NewMulti [1, 2]) [(5, 0)]).Signers toyVerify toyKeyBytes).err =
      some (Error.signatureMismatch 0 [5]) ∧
    ((NewMulti [1, 2] : MultiSig Nat Nat).SignBytes toyEncode).2 =
      some (Error.new "Never signed") :=
  ⟨(MultiSig_never_signed toyVerify toyKeyBytes toyEncode
      (signAll (NewMulti [1, 2]) [(5, 0)])).2.2.2 (by simp [signAll, MultiSig.Sign, NewMulti]),
    rfl,
    (MultiSig_never_signed toyVerify toyKeyBytes toyEncode (NewMulti [1, 2])).2.1.mpr rfl⟩

theorem Sign_data {PubKey Signature : Type} (s : MultiSig PubKey Signature)
    (pubkey : Option PubKey) (sig : Option Signature) :
    (s.Sign pubkey sig).2.data = s.data := by
  cases pubkey <;> cases sig <;> rfl

theorem afterAll_data {PubKey Signature : Type} :
    ∀ (calls : List (MultiSigCall PubKey Signature)) (s : MultiSig PubKey Signature),
      (s.afterAll calls).data = s.data
  | [], _ => rfl
  | call :: rest, s => by
    rw [MultiSig.afterAll, afterAll_data rest]
    cases call with
    | sign pubkey sig => exact Sign_data s pubkey sig
    | signers => rfl
    | signBytes => rfl

/-- C12: `NewMulti(d).Bytes()` is `d`, and `Bytes()` is still `d` after any
sequence of `Sign`, `Signers` and `SignBytes` calls, failing or not. -/
theorem MultiSig_Bytes_unchanged {PubKey Signature : Type} (d : ByteSlice)
    (calls : List (MultiSigCall PubKey Signature)) :
    (NewMulti d : MultiSig PubKey Signature).Bytes = d ∧
    ((NewMulti d : MultiSig PubKey Signature).afterAll calls).Bytes = d := by
  refine ⟨rfl, ?_⟩
  unfold MultiSig.Bytes
  rw [afterAll_data]
  rfl

/-! ### MissingProvider, Seed, LoadSeed -/

theorem storeEach_MissingProvider {W : Type} :
    ∀ (stored : List Seed) (w : W), storeEach MissingProvider stored w = w
  | [], _ => rfl
  | _ :: rest, w => by
    rw [storeEach]
    exact storeEach_MissingProvider rest w

/-- C13: `MissingProvider` is a null object: `StoreSeed` returns no error and
changes nothing, `GetByHeight` and `GetByHash` fail with seed-not-found for
every height and hash, also after any sequence of `StoreSeed` calls. -/
theorem MissingProvider_null_object {W : Type} (stored : List Seed) (seed : Seed) (h : Int)
    (hash : ByteSlice) (w : W) :
    (MissingProvider : Provider W).StoreSeed seed w = (none, w) ∧
    (MissingProvider : Provider W).GetByHeight h w = (Seed.zero, some Error.seedNotFound, w) ∧
    (MissingProvider : Provider W).GetByHash hash w = (Seed.zero, some Error.seedNotFound, w) ∧
    storeEach MissingProvider stored w = w ∧
    ((MissingProvider : Provider W).GetByHeight h (storeEach MissingProvider stored w)).2.1 =
      some Error.seedNotFound ∧
    ((MissingProvider : Provider W).GetByHash hash (storeEach MissingProvider stored w)).2.1 =
      some Error.seedNotFound :=
  ⟨rfl, rfl, rfl, storeEach_MissingProvider stored w, rfl, rfl⟩

/-- C15: `Height()` of a seed is the height of its checkpoint; `Hash()` is the
`ValidatorsHash` of the header when the header is present, and empty when it
is absent; so two seeds whose headers carry the same `ValidatorsHash` have the
same `Hash()`, whatever their heights and validators. -/
theorem Seed_Height_Hash (s t : Seed) :
    s.Height = s.toCheckpoint.Height ∧
    (∀ hd, s.Header = some hd → s.Hash = hd.ValidatorsHash) ∧
    (s.Header = none → s.Hash = []) ∧
    (∀ hs ht, s.Header = some hs → t.Header = some ht →
      hs.ValidatorsHash = ht.ValidatorsHash → s.Hash = t.Hash) := by
  refine ⟨rfl, ?_, ?_, ?_⟩
  · intro hd h
    simp [Seed.Hash, h]
  · intro h
    simp [Seed.Hash, h]
  · intro hs ht h1 h2 heq
    simp [Seed.Hash, h1, h2, heq]

/-- C16: `LoadSeed` returns the decoded seed and no error when opening and
decoding succeed; when either fails with `e`, it returns the seed-not-found
error exactly when `e` is a does-not-exist failure, and otherwise `e` wrapped,
which is not the seed-not-found error. -/
theorem LoadSeed_classification (osOpen : String → Except Error ByteSlice)
    (readBinary : ByteSlice → Seed × Option Error) (isNotExist : Error → Bool)
    (path : String) :
    (∀ f seed, osOpen path = Except.ok f → readBinary f = (seed, none) →
      LoadSeed osOpen readBinary isNotExist path = (seed, none)) ∧
    (∀ e, (osOpen path = Except.error e ∨
        ∃ f seed, osOpen path = Except.ok f ∧ readBinary f = (seed, some e)) →
      ((LoadSeed osOpen readBinary isNotExist path).2 = some Error.seedNotFound ↔
        isNotExist e = true) ∧
      (isNotExist e = false →
        (LoadSeed osOpen readBinary isNotExist path).2 = some (Error.withStack e) ∧
        (LoadSeed osOpen readBinary isNotExist path).2 ≠ some Error.seedNotFound)) ∧
    ((LoadSeed osOpen readBinary isNotExist path).2 = some Error.seedNotFound →
      ∃ e, (osOpen path = Except.error e ∨
        ∃ f seed, osOpen path = Except.ok f ∧ readBinary f = (seed, some e)) ∧
        isNotExist e = true) := by
  refine ⟨?_, ?_, ?_⟩
  · intro f seed hopen hread
    simp [LoadSeed, hopen, hread]
  · intro e he
    have hr : (LoadSeed osOpen readBinary isNotExist path).2 =
        if isNotExist e then some Error.seedNotFound else some (Error.withStack e) := by
      rcases he with hopen | ⟨f, seed, hopen, hread⟩
      · simp only [LoadSeed, hopen]
        split_ifs <;> rfl
      · simp only [LoadSeed, hopen, hread]
        split_ifs <;> rfl
    cases hn : isNotExist e with
    | true => simp [hr, hn]
    | false => simp [hr, hn]
  · intro hres
    cases hopen : osOpen path with
    | error e =>
      refine ⟨e, Or.inl rfl, ?_⟩
      cases hn : isNotExist e with
      | true => rfl
      | false => simp [LoadSeed, hopen, hn] at hres
    | ok f =>
      rcases hread : readBinary f with ⟨seed, err⟩
      cases err with
      | none => simp [LoadSeed, hopen, hread] at hres
      | some e =>
        refine ⟨e, Or.inr ⟨f, seed, rfl, hread⟩, ?_⟩
        cases hn : isNotExist e with
        | true => rfl
        | false => simp [LoadSeed, hopen, hread, hn] at hres

/-- C16 on a toy file system: a missing file gives seed-not-found, an
unreadable file gives the wrapped error, a readable file gives its seed. -/
theorem LoadSeed_classification_witness :
    (LoadSeed toyOpen toyRead toyIsNotExist "seed-99").2 = some Error.seedNotFound ∧
    (LoadSeed toyOpen toyRead toyIsNotExist "locked").2 =
      some (Error.withStack (Error.new "permission denied")) ∧
    LoadSeed toyOpen toyRead toyIsNotExist "seed-20" = (mkSeed 20 [20], none) :=
  ⟨((LoadSeed_classification toyOpen toyRead toyIsNotExist "seed-99").2.1
      (Error.new "no such file") (Or.inl (by simp [toyOpen]))).1.mpr (by decide),
    by decide, by decide⟩

/-! ### The file provider and LatestSeed -/

theorem greatestAtMost_none (h : Int) :
    ∀ (w : List Seed), greatestAtMost h w = none → ∀ t ∈ w, ¬ t.Height ≤ h
  | [], _, t, ht => by simp at ht
  | x :: rest, hw, t, ht => by
    cases hrest : greatestAtMost h rest with
    | none =>
      rw [greatestAtMost, hrest] at hw
      by_cases hx : x.Height ≤ h
      · simp [hx] at hw
      · rcases List.mem_cons.mp ht with heq | hmem
        · rw [heq]; exact hx
        · exact greatestAtMost_none h rest hrest t hmem
    | some v =>
      rw [greatestAtMost, hrest] at hw
      dsimp only at hw
      split_ifs at hw

theorem greatestAtMost_some (h : Int) :
    ∀ (w : List Seed) (s : Seed), greatestAtMost h w = some s → IsGreatestAtMost w h s
  | [], s, hs => by simp [greatestAtMost] at hs
  | x :: rest, s, hs => by
    cases hrest : greatestAtMost h rest with
    | none =>
      have hnone := greatestAtMost_none h rest hrest
      rw [greatestAtMost, hrest] at hs
      by_cases hx : x.Height ≤ h
      · simp only [hx, if_true, Option.some.injEq] at hs
        subst hs
        refine ⟨List.mem_cons_self _ _, hx, ?_⟩
        intro t ht hle
        rcases List.mem_cons.mp ht with heq | hmem
        · rw [heq]
        · exact absurd hle (hnone t hmem)
      · simp [hx] at hs
    | some t =>
      have ih := greatestAtMost_some h rest t hrest
      rw [greatestAtMost, hrest] at hs
      dsimp only at hs
      by_cases hx : x.Height ≤ h ∧ t.Height ≤ x.Height
      · rw [if_pos hx] at hs
        have hsx : x = s := Option.some.inj hs
        subst hsx
        refine ⟨List.mem_cons_self _ _, hx.1, ?_⟩
        intro u hu hle
        rcases List.mem_cons.mp hu with heq | hmem
        · rw [heq]
        · exact le_trans (ih.2.2 u hmem hle) hx.2
      · rw [if_neg hx] at hs
        have hst : t = s := Option.some.inj hs
        subst hst
        refine ⟨List.mem_cons_of_mem _ ih.1, ih.2.1, ?_⟩
        intro u hu hle
        rcases List.mem_cons.mp hu with heq | hmem
        · subst heq
          by_contra hlt
          exact hx ⟨hle, by omega⟩
        · exact ih.2.2 u hmem hle

theorem FileProvider_GetByHeight_eq (h : Int) (w : List Seed) :
    FileProvider.GetByHeight h w =
      match greatestAtMost h w with
      | some s => (s, none, w)
      | none => (Seed.zero, some Error.seedNotFound, w) := rfl

theorem FileProvider_GetByHash_eq (hash : ByteSlice) (w : List Seed) :
    FileProvider.GetByHash hash w =
      match w.find? (fun s => decide (s.Hash = hash)) with
      | some s => (s, none, w)
      | none => (Seed.zero, some Error.seedNotFound, w) := rfl

/-- The file provider answers `GetByHeight` as the height contract requires
over its store. -/
theorem FileProvider_contract (w : List Seed) (h : Int) :
    HeightContract w h ((FileProvider.GetByHeight h w).1, (FileProvider.GetByHeight h w).2.1) := by
  cases hg : greatestAtMost h w with
  | none =>
    have hnone := greatestAtMost_none h w hg
    constructor
    · rintro ⟨t, ht, hle⟩
      exact absurd hle (hnone t ht)
    · intro _
      rw [FileProvider_GetByHeight_eq, hg]
      simp
  | some s =>
    have hs := greatestAtMost_some h w s hg
    constructor
    · intro _
      rw [FileProvider_GetByHeight_eq, hg]
      exact ⟨rfl, hs⟩
    · intro hno
      exact absurd ⟨s, hs.1, hs.2.1⟩ hno

theorem mem_storeEach_FileProvider (t : Seed) :
    ∀ (seeds w : List Seed), t ∈ storeEach FileProvider seeds w ↔ t ∈ w ∨ t ∈ seeds
  | [], w => by simp [storeEach]
  | x :: rest, w => by
    rw [storeEach, mem_storeEach_FileProvider t rest]
    by_cases hx : x ∈ w
    · simp only [FileProvider, hx, if_true, List.mem_cons]
      constructor
      · rintro (h1 | h2)
        · exact Or.inl h1
        · exact Or.inr (Or.inr h2)
      · rintro (h1 | h2 | h3)
        · exact Or.inl h1
        · exact Or.inl (h2 ▸ hx)
        · exact Or.inr h3
    · simp only [FileProvider, hx, if_false, List.mem_append, List.mem_singleton, List.mem_cons]
      tauto

/-- What `GetByHeight` of the file provider returns when `lo` is a stored seed
of the greatest stored height `≤ h`. -/
theorem FileProvider_GetByHeight_at (w : List Seed) (h : Int) (lo : Seed)
    (hlo : lo ∈ w) (hle : lo.Height ≤ h) (hgap : ∀ t ∈ w, t.Height ≤ lo.Height ∨ h < t.Height) :
    (FileProvider.GetByHeight h w).2.1 = none ∧
    (FileProvider.GetByHeight h w).1 ∈ w ∧
    (FileProvider.GetByHeight h w).1.Height = lo.Height := by
  rcases (FileProvider_contract w h).1 ⟨lo, hlo, hle⟩ with ⟨herr, hmem, hsle, hmax⟩
  refine ⟨herr, hmem, ?_⟩
  have h1 := hmax lo hlo hle
  rcases hgap _ hmem with h2 | h2
  · exact le_antisymm h2 h1
  · exact absurd hsle (by omega)

/-- C17: the file provider after storing `seeds` in an empty store.
`GetByHeight(h)` fails with seed-not-found when every stored height is above
`h` (so on the empty store); it returns with no error a stored seed of the
greatest stored height when `h` is at or above it, and a stored seed of height
`h_i` when `h_i ≤ h` and no stored height lies in between (that very seed when
no other has its height).  `GetByHash` returns with no error a stored seed of
the queried hash when one is stored (that very seed when no other has its
hash), and fails with seed-not-found for a hash never stored. -/
theorem FileProvider_queries (seeds : List Seed) (h : Int) (hash : ByteSlice) :
    ((∀ t ∈ seeds, h < t.Height) →
      (FileProvider.GetByHeight h (storeEach FileProvider seeds [])).2.1 =
        some Error.seedNotFound) ∧
    (∀ top ∈ seeds, (∀ t ∈ seeds, t.Height ≤ top.Height) → top.Height ≤ h →
      (FileProvider.GetByHeight h (storeEach FileProvider seeds [])).2.1 = none ∧
      (FileProvider.GetByHeight h (storeEach FileProvider seeds [])).1 ∈ seeds ∧
      (FileProvider.GetByHeight h (storeEach FileProvider seeds [])).1.Height = top.Height) ∧
    (∀ lo ∈ seeds, lo.Height ≤ h → (∀ t ∈ seeds, t.Height ≤ lo.Height ∨ h < t.Height) →
      (FileProvider.GetByHeight h (storeEach FileProvider seeds [])).2.1 = none ∧
      (FileProvider.GetByHeight h (storeEach FileProvider seeds [])).1 ∈ seeds ∧
      (FileProvider.GetByHeight h (storeEach FileProvider seeds [])).1.Height = lo.Height ∧
      ((∀ t ∈ seeds, t.Height = lo.Height → t = lo) →
        (FileProvider.GetByHeight h (storeEach FileProvider seeds [])).1 = lo)) ∧
    (∀ s ∈ seeds,
      (FileProvider.GetByHash s.Hash (storeEach FileProvider seeds [])).2.1 = none ∧
      (FileProvider.GetByHash s.Hash (storeEach FileProvider seeds [])).1 ∈ seeds ∧
      (FileProvider.GetByHash s.Hash (storeEach FileProvider seeds [])).1.Hash = s.Hash ∧
      ((∀ t ∈ seeds, t.Hash = s.Hash → t = s) →
        (FileProvider.GetByHash s.Hash (storeEach FileProvider seeds [])).1 = s)) ∧
    ((∀ t ∈ seeds, t.Hash ≠ hash) →
      (FileProvider.GetByHash hash (storeEach FileProvider seeds [])).2.1 =
        some Error.seedNotFound) := by
  have hmem : ∀ t, t ∈ storeEach FileProvider seeds [] ↔ t ∈ seeds := by
    intro t
    rw [mem_storeEach_FileProvider]
    simp
  refine ⟨?_, ?_, ?_, ?_, ?_⟩
  · intro hall
    have hno : ¬ ∃ t ∈ storeEach FileProvider seeds [], t.Height ≤ h := by
      rintro ⟨t, ht, hle⟩
      have := hall t ((hmem t).mp ht)
      omega
    cases hg : greatestAtMost h (storeEach FileProvider seeds []) with
    | none => rw [FileProvider_GetByHeight_eq, hg]
    | some s =>
      have hs := greatestAtMost_some h _ s hg
      exact absurd ⟨s, hs.1, hs.2.1⟩ hno
  · intro top htop hmax hle
    have := FileProvider_GetByHeight_at (storeEach FileProvider seeds []) h top
      ((hmem top).mpr htop) hle (fun t ht => Or.inl (hmax t ((hmem t).mp ht)))
    exact ⟨this.1, (hmem _).mp this.2.1, this.2.2⟩
  · intro lo hlo hle hgap
    have := FileProvider_GetByHeight_at (storeEach FileProvider seeds []) h lo
      ((hmem lo).mpr hlo) hle (fun t ht => hgap t ((hmem t).mp ht))
    exact ⟨this.1, (hmem _).mp this.2.1, this.2.2,
      fun huniq => huniq _ ((hmem _).mp this.2.1) this.2.2⟩
  · intro s hs
    cases hf : (storeEach FileProvider seeds []).find? (fun x => decide (x.Hash = s.Hash)) with
    | none =>
      have := List.find?_eq_none.mp hf s ((hmem s).mpr hs)
      simp at this
    | some x =>
      have hx1 : x ∈ storeEach FileProvider seeds [] := List.mem_of_find?_eq_some hf
      have hx2 : x.Hash = s.Hash := by
        have := List.find?_some hf
        simpa using this
      rw [FileProvider_GetByHash_eq, hf]
      exact ⟨rfl, (hmem x).mp hx1, hx2, fun huniq => huniq x ((hmem x).mp hx1) hx2⟩
  · intro hall
    cases hf : (storeEach FileProvider seeds []).find? (fun x => decide (x.Hash = hash)) with
    | none => rw [FileProvider_GetByHash_eq, hf]
    | some x =>
      have hx1 : x ∈ storeEach FileProvider seeds [] := List.mem_of_find?_eq_some hf
      have hx2 : x.Hash = hash := by
        have := List.find?_some hf
        simpa using this
      exact absurd hx2 (hall x ((hmem x).mp hx1))

/-- C17 on the store of the test, heights 20, 30, ..., 110: `GetByHeight(5000)`
has height 110, `GetByHeight(47)` has height 40, `GetByHeight(5)` is
seed-not-found, `GetByHash` of the hash of the stored seeds succeeds, and
`GetByHash` of another hash is seed-not-found. -/
theorem FileProvider_queries_witness :
    ((FileProvider.GetByHeight 5000 (storeEach FileProvider testSeeds [])).2.1 = none ∧
      (FileProvider.GetByHeight 5000 (storeEach FileProvider testSeeds [])).1.Height = 110) ∧
    ((FileProvider.GetByHeight 47 (storeEach FileProvider testSeeds [])).2.1 = none ∧
      (FileProvider.GetByHeight 47 (storeEach FileProvider testSeeds [])).1.Height = 40) ∧
    (FileProvider.GetByHeight 5 (storeEach FileProvider testSeeds [])).2.1 =
      some Error.seedNotFound ∧
    (FileProvider.GetByHash [5] (storeEach FileProvider testSeeds [])).2.1 = none ∧
    (FileProvider.GetByHash [9] (storeEach FileProvider testSeeds [])).2.1 =
      some Error.seedNotFound :=
  ⟨⟨((FileProvider_queries testSeeds 5000 []).2.1 (mkSeed 110 [5]) (by decide) (by decide)
        (by decide)).1,
      ((FileProvider_queries testSeeds 5000 []).2.1 (mkSeed 110 [5]) (by decide) (by decide)
        (by decide)).2.2⟩,
    ⟨((FileProvider_queries testSeeds 47 []).2.2.1 (mkSeed 40 [5]) (by decide) (by decide)
        (by decide)).1,
      ((FileProvider_queries testSeeds 47 []).2.2.1 (mkSeed 40 [5]) (by decide) (by decide)
        (by decide)).2.2.1⟩,
    (FileProvider_queries testSeeds 5 []).1 (by decide),
    ((FileProvider_queries testSeeds 5 []).2.2.2.1 (mkSeed 50 [5]) (by decide)).1,
    (FileProvider_queries testSeeds 5 [9]).2.2.2.2 (by decide)⟩

/-- C14 fails as stated: the file provider satisfies the height contract over
a store holding heights 20 and 2147483645, and `LatestSeed` returns the
height-20 seed, not the seed of greatest height; over a store holding only the
height 2147483645 it returns seed-not-found. -/
theorem LatestSeed_misses_heights_above_FutureHeight :
    (∀ h, HeightContract [mkSeed 20 [1], mkSeed 2147483645 [2]] h
      ((FileProvider.GetByHeight h [mkSeed 20 [1], mkSeed 2147483645 [2]]).1,
        (FileProvider.GetByHeight h [mkSeed 20 [1], mkSeed 2147483645 [2]]).2.1)) ∧
    LatestSeed FileProvider [mkSeed 20 [1], mkSeed 2147483645 [2]] =
      (mkSeed 20 [1], none, [mkSeed 20 [1], mkSeed 2147483645 [2]]) ∧
    (mkSeed 20 [1]).Height < (mkSeed 2147483645 [2]).Height ∧
    (LatestSeed FileProvider [mkSeed 2147483645 [2]]).2.1 = some Error.seedNotFound :=
  ⟨fun h => FileProvider_contract _ h, by decide, by decide, by decide⟩

/-- C14, amended: for a provider that satisfies the height contract over a
non-empty store all of whose heights are at most `FutureHeight`, which is
2147483647 - 5, `LatestSeed` is `GetByHeight(FutureHeight)` and returns with no
error a stored seed of the greatest stored height. -/
theorem LatestSeed_greatest {W : Type} (p : Provider W) (store : List Seed) (w : W)
    (hne : store ≠ [])
    (hcontract : ∀ h, HeightContract store h ((p.GetByHeight h w).1, (p.GetByHeight h w).2.1))
    (hfit : ∀ t ∈ store, t.Height ≤ FutureHeight) :
    LatestSeed p w = p.GetByHeight FutureHeight w ∧
    FutureHeight = 2147483647 - 5 ∧
    (LatestSeed p w).2.1 = none ∧
    (LatestSeed p w).1 ∈ store ∧
    (∀ t ∈ store, t.Height ≤ (LatestSeed p w).1.Height) := by
  rcases List.exists_mem_of_ne_nil store hne with ⟨t0, ht0⟩
  rcases (hcontract FutureHeight).1 ⟨t0, ht0, hfit t0 ht0⟩ with ⟨herr, hmem, _, hmax⟩
  exact ⟨rfl, rfl, herr, hmem, fun t ht => hmax t ht (hfit t ht)⟩

/-- C14 amended, on the store of the test: the latest seed has height 110. -/
theorem LatestSeed_greatest_witness :
    (LatestSeed FileProvider (storeEach FileProvider testSeeds [])).2.1 = none ∧
    (LatestSeed FileProvider (storeEach FileProvider testSeeds [])).1.Height = 110 :=
  ⟨(LatestSeed_greatest FileProvider (storeEach FileProvider testSeeds [])
      (storeEach FileProvider testSeeds []) (by decide)
      (fun h => FileProvider_contract _ h) (by decide)).2.2.1, by decide⟩

/-! ### GetByHeight: what is returned without error, and ties -/

theorem heightStop_pos (h : Int) :
    ∀ (rs : List (Seed × Option Error)), rs ≠ [] → 0 < heightStop h rs
  | [], hne => absurd rfl hne
  | (ts, none) :: rest, _ => by
    by_cases hts : ts.Height = h <;> simp [heightStop, hts]
  | (_, some _) :: rest, _ => by simp [heightStop]

/-- The best seed is the starting seed or a seed strictly above it. -/
theorem bestSeed_eq_or_gt :
    ∀ (rs : List (Seed × Option Error)) (s : Seed),
      bestSeed s rs = s ∨ s.Height < (bestSeed s rs).Height
  | [], s => Or.inl rfl
  | (ts, none) :: rest, s => by
    simp only [bestSeed]
    by_cases hgt : ts.Height > s.Height
    · rw [if_pos hgt]
      have hge := bestSeed_ge_init rest ts
      exact Or.inr (by omega)
    · rw [if_neg hgt]
      exact bestSeed_eq_or_gt rest s
  | (_, some _) :: rest, s => by
    simp only [bestSeed]
    exact bestSeed_eq_or_gt rest s

theorem bestSeed_stable :
    ∀ (rs : List (Seed × Option Error)) (s : Seed),
      (∀ r ∈ rs, r.2 = none → r.1.Height ≤ s.Height) → bestSeed s rs = s
  | [], _, _ => rfl
  | (ts, none) :: rest, s, hall => by
    have h0 : ts.Height ≤ s.Height := hall (ts, none) (List.mem_cons_self _ _) rfl
    have hnot : ¬ ts.Height > s.Height := by omega
    simp only [bestSeed, if_neg hnot]
    exact bestSeed_stable rest s (fun r hr hn => hall r (List.mem_cons_of_mem _ hr) hn)
  | (ts, some e) :: rest, s, hall => by
    simp only [bestSeed]
    exact bestSeed_stable rest s (fun r hr hn => hall r (List.mem_cons_of_mem _ hr) hn)

/-- The best seed is the first successful result of the greatest height, when
that height is above the height of the starting seed. -/
theorem bestSeed_first_max (t : Seed) :
    ∀ (rs : List (Seed × Option Error)) (i : Nat) (s : Seed),
      rs[i]? = some (t, none) → s.Height < t.Height →
      (∀ r ∈ rs, r.2 = none → r.1.Height ≤ t.Height) →
      (∀ j r, j < i → rs[j]? = some r → r.2 = none → r.1.Height < t.Height) →
      bestSeed s rs = t
  | [], i, s, hi, _, _, _ => by simp at hi
  | (ts, none) :: rest, 0, s, hi, hs, hmax, _ => by
    have hts : ts = t := by simpa using hi
    subst hts
    simp only [bestSeed, gt_iff_lt, if_pos hs]
    exact bestSeed_stable rest ts (fun r hr hn => hmax r (List.mem_cons_of_mem _ hr) hn)
  | (ts, some e) :: rest, 0, s, hi, _, _, _ => by simp at hi
  | (ts, none) :: rest, i + 1, s, hi, hs, hmax, hj => by
    have h0 : ts.Height < t.Height := hj 0 (ts, none) (by omega) (by simp) rfl
    have hs1 : (if ts.Height > s.Height then ts else s).Height < t.Height := by
      split_ifs <;> assumption
    simp only [bestSeed]
    exact bestSeed_first_max t rest i _ (by simpa using hi) hs1
      (fun r hr hn => hmax r (List.mem_cons_of_mem _ hr) hn)
      (fun j r hji hr hn => hj (j + 1) r (by omega) (by simpa using hr) hn)
  | (ts, some e) :: rest, i + 1, s, hi, hs, hmax, hj => by
    simp only [bestSeed]
    exact bestSeed_first_max t rest i s (by simpa using hi) hs
      (fun r hr hn => hmax r (List.mem_cons_of_mem _ hr) hn)
      (fun j r hji hr hn => hj (j + 1) r (by omega) (by simpa using hr) hn)

/-- C18 fails as stated: on the empty list of sub-providers `GetByHeight`
returns the zero seed with no error although no sub-provider was called; and
when the only sub-provider returns a seed of height 0 for `h = 0`, the call
returns the zero seed with no error, not the seed the sub-provider returned. -/
theorem CacheProvider_GetByHeight_zero_seed_without_error :
    ((CacheProvider.GetByHeight (NewCacheProvider ([] : List (Provider (List Nat)))) 25 []).err =
        none ∧
      (CacheProvider.GetByHeight (NewCacheProvider ([] : List (Provider (List Nat)))) 25 []).s =
        Seed.zero ∧
      (CacheProvider.GetByHeight (NewCacheProvider ([] : List (Provider (List Nat)))) 25
        []).calls = []) ∧
    ((CacheProvider.GetByHeight (NewCacheProvider [probe 0 none (mkSeed 0 [1]) none]) 0 []).err =
        none ∧
      (CacheProvider.GetByHeight (NewCacheProvider [probe 0 none (mkSeed 0 [1]) none]) 0 []).s =
        Seed.zero ∧
      (CacheProvider.GetByHeight (NewCacheProvider [probe 0 none (mkSeed 0 [1]) none]) 0
        []).calls = [(0, mkSeed 0 [1], none)] ∧
      Seed.zero ≠ mkSeed 0 [1]) :=
  ⟨⟨rfl, rfl, rfl⟩, rfl, rfl, rfl, by decide⟩

/-- C18, amended: for every list of sub-providers, the empty one included,
and every `h`: a returned seed that is not the zero seed, so in particular
one of height at least 1, comes with no error and is a seed that a queried
sub-provider returned without error for this `h`; a call that returns no error
returns such a seed, or else the zero seed, and this only on the empty list
or when the last call made succeeded with a seed of height at most 0; and on
a non-empty list, when every sub-provider fails the call fails. -/
theorem CacheProvider_GetByHeight_returns_queried_seed {W : Type} (c : CacheProvider W)
    (h : Int) (w : W) :
    ((c.GetByHeight h w).s ≠ Seed.zero →
      (c.GetByHeight h w).err = none ∧
      ∃ q ∈ (c.GetByHeight h w).calls, q.2.2 = none ∧ q.2.1 = (c.GetByHeight h w).s) ∧
    (1 ≤ (c.GetByHeight h w).s.Height →
      (c.GetByHeight h w).err = none ∧
      ∃ q ∈ (c.GetByHeight h w).calls, q.2.2 = none ∧ q.2.1 = (c.GetByHeight h w).s) ∧
    ((c.GetByHeight h w).err = none →
      (∃ q ∈ (c.GetByHeight h w).calls, q.2.2 = none ∧ q.2.1 = (c.GetByHeight h w).s) ∨
      ((c.GetByHeight h w).s = Seed.zero ∧
        (c.Providers = [] ∨
          ∃ q, (c.GetByHeight h w).calls.getLast? = some q ∧ q.2.2 = none ∧
            q.2.1.Height ≤ 0))) ∧
    (c.Providers ≠ [] → (∀ r ∈ heightAll h c.Providers w, r.2 ≠ none) →
      (c.GetByHeight h w).err ≠ none) := by
  have hsnd := GetByHeight_calls_snd c h w
  have hs := GetByHeight_s c h w
  have herr := GetByHeight_err c h w
  have hrs : c.Providers ≠ [] → heightAll h c.Providers w ≠ [] := by
    intro hne hnil
    have := length_heightAll h c.Providers w
    rw [hnil] at this
    exact hne (List.length_eq_zero.mp this.symm)
  -- a returned seed other than the zero seed is a queried success, with no error
  have hA : (c.GetByHeight h w).s ≠ Seed.zero →
      (c.GetByHeight h w).err = none ∧
      ∃ q ∈ (c.GetByHeight h w).calls, q.2.2 = none ∧ q.2.1 = (c.GetByHeight h w).s := by
    intro hnz
    have hgt : (c.GetByHeight h w).s.Height > 0 := by
      rcases bestSeed_eq_or_gt
        ((heightAll h c.Providers w).take (heightStop h (heightAll h c.Providers w)))
        Seed.zero with hz | hz
      · rw [← hs] at hz
        exact absurd hz hnz
      · rw [← hs, Seed_zero_Height] at hz
        exact hz
    refine ⟨by rw [herr, if_pos hgt], ?_⟩
    rcases bestSeed_mem
      ((heightAll h c.Providers w).take (heightStop h (heightAll h c.Providers w)))
      Seed.zero with hz | ⟨r, hr, hn, hb⟩
    · rw [← hs] at hz
      exact absurd hz hnz
    · rw [← hsnd] at hr
      rcases List.mem_map.mp hr with ⟨q, hq, hqr⟩
      refine ⟨q, hq, ?_, ?_⟩
      · rw [hqr]; exact hn
      · rw [hqr, hs]; exact hb.symm
  refine ⟨hA, ?_, ?_, ?_⟩
  · intro h1
    refine hA ?_
    intro hz
    rw [hz, Seed_zero_Height] at h1
    omega
  · intro hok
    by_cases hnz : (c.GetByHeight h w).s = Seed.zero
    · by_cases hne : c.Providers = []
      · exact Or.inr ⟨hnz, Or.inl hne⟩
      · have hpre : (heightAll h c.Providers w).take
            (heightStop h (heightAll h c.Providers w)) ≠ [] := by
          intro hnil
          rcases List.take_eq_nil_iff.mp hnil with h0 | h0
          · have := heightStop_pos h _ (hrs hne)
            omega
          · exact hrs hne h0
        have hnot : ¬ (c.GetByHeight h w).s.Height > 0 := by
          rw [hnz, Seed_zero_Height]
          omega
        rw [herr, if_neg hnot] at hok
        have hlast := lastErr_eq_getLast _ none hpre
        rw [hok, ← hsnd, List.getLast?_map] at hlast
        cases hq : (c.GetByHeight h w).calls.getLast? with
        | none => rw [hq] at hlast; simp at hlast
        | some q =>
          rw [hq] at hlast
          have hq2 : q.2.2 = none := by simpa using hlast
          have hqmem : q.2 ∈ (heightAll h c.Providers w).take
              (heightStop h (heightAll h c.Providers w)) := by
            rw [← hsnd]
            exact List.mem_map_of_mem _ (List.mem_of_getLast?_eq_some hq)
          have hle := bestSeed_ge _ Seed.zero q.2 hqmem hq2
          rw [← hs, hnz, Seed_zero_Height] at hle
          exact Or.inr ⟨hnz, Or.inr ⟨q, rfl, hq2, hle⟩⟩
    · exact Or.inl (hA hnz).2
  · intro hne hall
    have hz : (c.GetByHeight h w).s = Seed.zero := by
      rw [hs, heightStop_all_err h _ hall, List.take_length]
      exact bestSeed_all_err _ _ hall
    rw [herr, hz, Seed_zero_Height, if_neg (by omega), heightStop_all_err h _ hall,
      List.take_length]
    exact lastErr_all_err _ _ (hrs hne) hall

/-- C18 amended, at a concrete input: the first sub-provider returns a seed of
height 0, the second a seed of height 20; the call returns the second seed,
with no error. -/
theorem CacheProvider_GetByHeight_returns_queried_seed_witness :
    (CacheProvider.GetByHeight
        (NewCacheProvider [probe 0 none (mkSeed 0 [1]) none,
          probe 1 none (mkSeed 20 [2]) none]) 25 []).err = none ∧
    (∃ q ∈ (CacheProvider.GetByHeight
        (NewCacheProvider [probe 0 none (mkSeed 0 [1]) none,
          probe 1 none (mkSeed 20 [2]) none]) 25 []).calls,
      q.2.2 = none ∧
      q.2.1 = (CacheProvider.GetByHeight
        (NewCacheProvider [probe 0 none (mkSeed 0 [1]) none,
          probe 1 none (mkSeed 20 [2]) none]) 25 []).s) ∧
    (CacheProvider.GetByHeight
        (NewCacheProvider [probe 0 none (mkSeed 0 [1]) none,
          probe 1 none (mkSeed 20 [2]) none]) 25 []).s = mkSeed 20 [2] :=
  ⟨((CacheProvider_GetByHeight_returns_queried_seed
      (NewCacheProvider [probe 0 none (mkSeed 0 [1]) none,
        probe 1 none (mkSeed 20 [2]) none]) 25 []).2.1 (by decide)).1,
    ((CacheProvider_GetByHeight_returns_queried_seed
      (NewCacheProvider [probe 0 none (mkSeed 0 [1]) none,
        probe 1 none (mkSeed 20 [2]) none]) 25 []).2.1 (by decide)).2,
    rfl⟩

/-- C19: the nearest provider wins ties.  When the call at position `i`
returned without error a seed `t` of height at least 1, no call returned
without error a seed of greater height, and no earlier call returned one of
the same height, `GetByHeight(h)` returns exactly `t` with no error. -/
theorem CacheProvider_GetByHeight_nearest_wins_ties {W : Type} (c : CacheProvider W)
    (h : Int) (w : W) (i : Nat) (t : Seed)
    (hi : (c.GetByHeight h w).calls[i]? = some (i, t, none))
    (hpos : 1 ≤ t.Height)
    (hmax : ∀ q ∈ (c.GetByHeight h w).calls, q.2.2 = none → q.2.1.Height ≤ t.Height)
    (hfirst : ∀ (j : Nat) (q : Nat × Seed × Option Error), j < i →
      (c.GetByHeight h w).calls[j]? = some q → q.2.2 = none → q.2.1.Height < t.Height) :
    (c.GetByHeight h w).s = t ∧ (c.GetByHeight h w).err = none := by
  have hsnd := GetByHeight_calls_snd c h w
  have hget : ∀ j : Nat, ((heightAll h c.Providers w).take
      (heightStop h (heightAll h c.Providers w)))[j]? =
      ((c.GetByHeight h w).calls[j]?).map Prod.snd := by
    intro j
    rw [← hsnd]
    exact List.getElem?_map Prod.snd _ j
  have hs : (c.GetByHeight h w).s = t := by
    rw [GetByHeight_s]
    refine bestSeed_first_max t _ i Seed.zero ?_ (by rw [Seed_zero_Height]; omega) ?_ ?_
    · rw [hget, hi]
      rfl
    · intro r hr hn
      rw [← hsnd] at hr
      rcases List.mem_map.mp hr with ⟨q, hq, hqr⟩
      rw [← hqr]
      exact hmax q hq (by rw [hqr]; exact hn)
    · intro j r hji hr hn
      rw [hget] at hr
      cases hq : (c.GetByHeight h w).calls[j]? with
      | none => rw [hq] at hr; simp at hr
      | some q =>
        rw [hq] at hr
        have hqr : q.2 = r := by simpa using hr
        rw [← hqr]
        exact hfirst j q hji hq (by rw [hqr]; exact hn)
  refine ⟨hs, ?_⟩
  rw [GetByHeight_err, hs, if_pos (by omega)]

/-- C19 at a concrete input: two sub-providers hold different seeds of height
20; the seed of the first is returned. -/
theorem CacheProvider_GetByHeight_nearest_wins_ties_witness :
    (CacheProvider.GetByHeight
        (NewCacheProvider [probe 0 none (mkSeed 10 [1]) none, probe 1 none (mkSeed 20 [2]) none,
          probe 2 none (mkSeed 20 [3]) none]) 25 []).s = mkSeed 20 [2] ∧
    (CacheProvider.GetByHeight
        (NewCacheProvider [probe 0 none (mkSeed 10 [1]) none, probe 1 none (mkSeed 20 [2]) none,
          probe 2 none (mkSeed 20 [3]) none]) 25 []).err = none :=
  CacheProvider_GetByHeight_nearest_wins_ties
    (NewCacheProvider [probe 0 none (mkSeed 10 [1]) none, probe 1 none (mkSeed 20 [2]) none,
      probe 2 none (mkSeed 20 [3]) none]) 25 [] 1 (mkSeed 20 [2])
    (by rfl) (by decide) (by decide)
    (by
      intro j q hj hq _
      have hj0 : j = 0 := by omega
      subst hj0
      have hq0 : q = (0, mkSeed 10 [1], none) := by
        have : some ((0 : Nat), mkSeed 10 [1], (none : Option Error)) = some q := hq
        exact (Option.some.inj this).symm
      subst hq0
      decide)

/-! ### Seeds -/

/-- Overwriting position `j`, which holds `b`, with `x` and putting `b` in
front is a permutation of putting `x` in front. -/
theorem perm_cons_set {α : Type} (x b : α) :
    ∀ (l : List α) (j : Nat), l[j]? = some b → List.Perm (b :: l.set j x) (x :: l)
  | [], j, hj => by simp at hj
  | y :: l, 0, hj => by
    have hy : y = b := by simpa using hj
    subst hy
    simpa using List.Perm.swap x y l
  | y :: l, j + 1, hj => by
    have ih := perm_cons_set x b l j (by simpa using hj)
    have h1 : List.Perm (b :: y :: l.set j x) (y :: b :: l.set j x) := List.Perm.swap y b _
    have h2 : List.Perm (y :: b :: l.set j x) (y :: x :: l) := List.Perm.cons y ih
    have h3 : List.Perm (y :: x :: l) (x :: y :: l) := List.Perm.swap x y l
    simpa using (h1.trans h2).trans h3

/-- Exchanging two elements of a list gives a permutation of the list. -/
theorem perm_set_set {α : Type} :
    ∀ (l : List α) (i j : Nat) (a b : α), l[i]? = some a → l[j]? = some b →
      List.Perm ((l.set i b).set j a) l
  | [], i, j, a, b, hi, _ => by simp at hi
  | x :: l, 0, 0, a, b, hi, hj => by
    have ha : x = a := by simpa using hi
    subst ha
    simp
  | x :: l, 0, j + 1, a, b, hi, hj => by
    have ha : x = a := by simpa using hi
    subst ha
    simpa using perm_cons_set x b l j (by simpa using hj)
  | x :: l, i + 1, 0, a, b, hi, hj => by
    have hb : x = b := by simpa using hj
    subst hb
    simpa using perm_cons_set x a l i (by simpa using hi)
  | x :: l, i + 1, j + 1, a, b, hi, hj => by
    have ih := perm_set_set l i j a b (by simpa using hi) (by simpa using hj)
    simpa using List.Perm.cons x ih

/-- C20: for valid indices `i`, `j`, `k` of a `Seeds` collection holding `a`,
`b`, `c` there: `Less(i, j)` holds exactly when the height of `a` is strictly
below the height of `b`; this order is irreflexive and transitive, and two
seeds are incomparable exactly when their heights are equal; `Len()` is the
number of seeds; `Swap(i, j)` puts `b` at `i` and `a` at `j`, leaves every
other position, the length and the multiset of seeds unchanged. -/
theorem Seeds_sort_interface (s : Seeds) (i j k : Nat) (a b c : Seed)
    (hi : s[i]? = some a) (hj : s[j]? = some b) (hk : s[k]? = some c) :
    Seeds.Less s i j = some (decide (a.Height < b.Height)) ∧
    Seeds.Less s i i = some false ∧
    (Seeds.Less s i j = some true → Seeds.Less s j k = some true →
      Seeds.Less s i k = some true) ∧
    ((Seeds.Less s i j = some false ∧ Seeds.Less s j i = some false) ↔ a.Height = b.Height) ∧
    Seeds.Len s = s.length ∧
    ∃ s2 : Seeds, Seeds.Swap s i j = some s2 ∧
      s2[i]? = some b ∧ s2[j]? = some a ∧
      (∀ n : Nat, n ≠ i → n ≠ j → s2[n]? = s[n]?) ∧
      Seeds.Len s2 = Seeds.Len s ∧
      Multiset.ofList s2 = Multiset.ofList s := by
  have hilt : i < s.length := by
    rcases List.getElem?_eq_some.mp hi with ⟨hlt, _⟩
    exact hlt
  have hjlt : j < s.length := by
    rcases List.getElem?_eq_some.mp hj with ⟨hlt, _⟩
    exact hlt
  refine ⟨?_, ?_, ?_, ?_, rfl, ?_⟩
  · simp [Seeds.Less, hi, hj]
  · simp [Seeds.Less, hi]
  · simp only [Seeds.Less, hi, hj, hk, Option.some.injEq, decide_eq_true_eq]
    intro h1 h2
    omega
  · simp only [Seeds.Less, hi, hj, Option.some.injEq, decide_eq_false_iff_not]
    constructor
    · rintro ⟨h1, h2⟩
      omega
    · intro heq
      constructor <;> omega
  · refine ⟨(s.set i b).set j a, ?_, ?_, ?_, ?_, ?_, ?_⟩
    · simp [Seeds.Swap, hi, hj]
    · by_cases hij : i = j
      · subst hij
        have hab : a = b := by
          rw [hi] at hj
          exact Option.some.inj hj
        subst hab
        rw [List.getElem?_set, if_pos rfl, List.length_set, if_pos hilt]
      · rw [List.getElem?_set_ne (Ne.symm hij), List.getElem?_set, if_pos rfl, if_pos hilt]
    · rw [List.getElem?_set, if_pos rfl, List.length_set, if_pos hjlt]
    · intro n hni hnj
      rw [List.getElem?_set_ne (Ne.symm hnj), List.getElem?_set_ne (Ne.symm hni)]
    · simp [Seeds.Len]
    · exact Multiset.coe_eq_coe.mpr (perm_set_set s i j a b hi hj)

/-- C20 at a concrete input: three seeds of heights 30, 10, 30. -/
theorem Seeds_sort_interface_witness :
    Seeds.Less [mkSeed 30 [1], mkSeed 10 [2], mkSeed 30 [3]] 1 0 = some true ∧
    Seeds.Less [mkSeed 30 [1], mkSeed 10 [2], mkSeed 30 [3]] 0 2 = some false ∧
    Seeds.Swap [mkSeed 30 [1], mkSeed 10 [2], mkSeed 30 [3]] 1 0 =
      some [mkSeed 10 [2], mkSeed 30 [1], mkSeed 30 [3]] ∧
    Seeds.Less [mkSeed 30 [1], mkSeed 10 [2], mkSeed 30 [3]] 1 0 =
      some (decide ((mkSeed 10 [2]).Height < (mkSeed 30 [1]).Height)) :=
  ⟨by decide, by decide, by decide,
    (Seeds_sort_interface [mkSeed 30 [1], mkSeed 10 [2], mkSeed 30 [3]] 1 0 2
      (mkSeed 10 [2]) (mkSeed 30 [1]) (mkSeed 30 [3]) rfl rfl rfl).1⟩

end LightClient
